import Mathlib

/-! Verification of the draft coordination subsystem of the drafttool server:
the pack builder (src/server/src/draft/packs.rs), the draft state machine
(src/server/src/draft/game.rs) and the lobby actor
(src/server/src/draft/server.rs), shallowly embedded in Lean.  A Rust `Vec`
is modelled as a `List` (push at the tail, pop from the tail), a `VecDeque`
as a `List` whose head is the front, a `HashMap` as an association list, and
the thread-local RNG as explicit parameters: a bucket-shuffling permutation,
a stream of unit-interval draws for the mythic upgrade roll, and a bundled
element chooser for non-destructive sampling. -/

/-- Card rarities (src/server/src/cards/mod.rs, `enum Rarity`). -/
inductive Rarity where
  | Mythic
  | Rare
  | Uncommon
  | Common
  | Special
  | Bonus
  deriving DecidableEq, Repr

/-- Debug-format name of a rarity, as produced by Rust's `{rarity:?}`. -/
def rarityName : Rarity → String
  | .Mythic => "Mythic"
  | .Rare => "Rare"
  | .Uncommon => "Uncommon"
  | .Common => "Common"
  | .Special => "Special"
  | .Bonus => "Bonus"

/-- A card (src/server/src/cards/mod.rs, `struct Card`). -/
structure Card where
  name : String
  image : String
  set : String
  rarity : Rarity
  text : String
  deriving DecidableEq, Repr

/-- Draft configuration (fields as read and used by
src/server/src/draft/packs.rs and src/server/src/draft/handlers.rs; the
f32 `mythic_rate` is modelled as a rational, which is exact for the only
operation performed on it, an order comparison). -/
structure DraftConfig where
  rounds : Nat
  cards_per_pack : Nat
  unique_cards : Bool
  use_rarities : Bool
  allow_fallback : Bool
  mythic_rate : ℚ
  rares : Nat
  uncommons : Nat
  commons : Nat
  deriving DecidableEq, Repr

/-- A pack is an ordered sequence of cards (src/server/src/draft/packs.rs,
`pub type Pack = Vec<Card>`). -/
abbrev Pack := List Card

/-- Rust `Vec::pop`: remove and return the last element. -/
def vecPop (l : List α) : Option (α × List α) :=
  match l.getLast? with
  | some a => some (a, l.dropLast)
  | none => none

theorem vecPop_nil : vecPop ([] : List α) = none := rfl

theorem vecPop_eq_none {l : List α} : vecPop l = none ↔ l = [] := by
  cases l with
  | nil => simp [vecPop]
  | cons a as =>
    simp only [vecPop]
    rw [List.getLast?_eq_getLast _ (by simp)]
    simp

theorem vecPop_ne_nil {l : List α} (h : l ≠ []) :
    vecPop l = some (l.getLast h, l.dropLast) := by
  simp only [vecPop]
  rw [List.getLast?_eq_getLast _ h]

theorem vecPop_some {l : List α} {a : α} {rest : List α}
    (h : vecPop l = some (a, rest)) :
    a ∈ l ∧ rest = l.dropLast ∧ rest.length + 1 = l.length := by
  cases l with
  | nil => simp [vecPop] at h
  | cons x xs =>
    rw [vecPop_ne_nil (by simp)] at h
    obtain ⟨h1, h2⟩ := Prod.mk.injEq .. ▸ Option.some.injEq .. ▸ h
    refine ⟨h1 ▸ List.getLast_mem _, h2 ▸ rfl, ?_⟩
    rw [← h2]
    simp [List.length_dropLast]

/-- The rarity-bucketed pool of draftable cards
(src/server/src/draft/packs.rs, `struct DraftPool`). -/
structure DraftPool where
  mythics : List Card
  rares : List Card
  uncommons : List Card
  commons : List Card
  deriving DecidableEq, Repr

namespace DraftPool

/-- `DraftPool::new`. -/
def new : DraftPool := ⟨[], [], [], []⟩

/-- `DraftPool::add`: append to the bucket of the card's rarity; Special and
Bonus cards are silently dropped. -/
def add (p : DraftPool) (card : Card) : DraftPool :=
  match card.rarity with
  | .Mythic => { p with mythics := p.mythics ++ [card] }
  | .Rare => { p with rares := p.rares ++ [card] }
  | .Uncommon => { p with uncommons := p.uncommons ++ [card] }
  | .Common => { p with commons := p.commons ++ [card] }
  | .Special => p
  | .Bonus => p

/-- `DraftPool::empty`: all four buckets are empty. -/
def empty (p : DraftPool) : Bool :=
  p.mythics.isEmpty && p.rares.isEmpty && p.uncommons.isEmpty && p.commons.isEmpty

/-- `DraftPool::cards_of`. -/
def cards_of (p : DraftPool) : Rarity → List Card
  | .Mythic => p.mythics
  | .Rare => p.rares
  | .Uncommon => p.uncommons
  | .Common => p.commons
  | .Special => []
  | .Bonus => []

/-- Replace the bucket of the given rarity (the mutation performed by a
`pop` on the matched bucket in `DraftPool::take`). -/
def setBucket (p : DraftPool) (r : Rarity) (l : List Card) : DraftPool :=
  match r with
  | .Mythic => { p with mythics := l }
  | .Rare => { p with rares := l }
  | .Uncommon => { p with uncommons := l }
  | .Common => { p with commons := l }
  | .Special => p
  | .Bonus => p

/-- The `PRIORITIES` table of `DraftPool::replacement_rarity`: the first
element is the input rarity, the rest is the replacement priority order. -/
def priorityList : Rarity → List Rarity
  | .Mythic => [.Mythic, .Rare, .Uncommon, .Common]
  | .Rare => [.Rare, .Mythic, .Uncommon, .Common]
  | .Uncommon => [.Uncommon, .Common, .Rare, .Mythic]
  | .Common => [.Common, .Uncommon, .Rare, .Mythic]
  | .Special => []
  | .Bonus => []

/-- `DraftPool::replacement_rarity`: the first rarity with a non-empty
bucket in the priority row of the requested rarity. -/
def replacement_rarity (p : DraftPool) (r : Rarity) : Option Rarity :=
  (priorityList r).find? (fun x => !(p.cards_of x).isEmpty)

/-- `DraftPool::take`: destructively draw a card of the requested rarity,
falling back once per the priority table when the exact bucket is empty and
either fallback is allowed or a missing mythic can degrade to a rare. -/
def take (p : DraftPool) (r : Rarity) (allow_fallback : Bool) :
    Except String (Card × DraftPool) :=
  if p.empty then .error "Insufficient cards in pool."
  else
    match h : vecPop (p.cards_of r) with
    | some cp => .ok (cp.1, p.setBucket r cp.2)
    | none =>
      if allow_fallback = true ∨ (r = Rarity.Mythic ∧ p.rares ≠ []) then
        match h2 : p.replacement_rarity r with
        | some fb => p.take fb false
        | none => .error ("Insufficient " ++ rarityName r ++ "s in pool.")
      else .error "Insufficient cards in pool."
termination_by (if allow_fallback then 1 else 0) + (if (p.cards_of r).isEmpty then 1 else 0)
decreasing_by
  have hre : (p.cards_of r).isEmpty = true := by
    have : p.cards_of r = [] := vecPop_eq_none.mp h
    simp [this]
  have hfb : (p.cards_of fb).isEmpty = false := by
    have := List.find?_some h2
    simpa using this
  simp only [hre, hfb]
  cases allow_fallback <;> simp

/-- A model of `rand`'s `SliceRandom::choose`: some way of selecting an
element of a list, which fails exactly on the empty list and returns a
member otherwise. -/
structure Chooser where
  choose : List Card → Option Card
  choose_none : ∀ l : List Card, choose l = none ↔ l = []
  choose_mem : ∀ (l : List Card) (c : Card), choose l = some c → c ∈ l

/-- `DraftPool::roll`: non-destructively draw a card of the requested
rarity with the same fallback policy as `take`. -/
def roll (ch : Chooser) (p : DraftPool) (r : Rarity) (allow_fallback : Bool) :
    Except String Card :=
  match h : ch.choose (p.cards_of r) with
  | some card => .ok card
  | none =>
    if allow_fallback = true ∨ (r = Rarity.Mythic ∧ p.rares ≠ []) then
      match h2 : p.replacement_rarity r with
      | some fb => p.roll ch fb false
      | none => .error ("Insufficient " ++ rarityName r ++ "s in pool.")
    else .error "Insufficient cards in pool."
termination_by (if allow_fallback then 1 else 0) + (if (p.cards_of r).isEmpty then 1 else 0)
decreasing_by
  have hre : (p.cards_of r).isEmpty = true := by
    have : p.cards_of r = [] := (ch.choose_none _).mp h
    simp [this]
  have hfb : (p.cards_of fb).isEmpty = false := by
    have := List.find?_some h2
    simpa using this
  simp only [hre, hfb]
  cases allow_fallback <;> simp

end DraftPool

namespace DraftPool

theorem empty_false_of {p : DraftPool} {r : Rarity} (h : p.cards_of r ≠ []) :
    p.empty = false := by
  cases r <;> simp_all [DraftPool.empty, DraftPool.cards_of]

theorem take_of_empty (p : DraftPool) (r : Rarity) (af : Bool)
    (h : p.empty = true) : p.take r af = .error "Insufficient cards in pool." := by
  rw [DraftPool.take.eq_def]
  simp [h]

theorem take_of_bucket_ne_nil (p : DraftPool) (r : Rarity) (af : Bool)
    (h : p.cards_of r ≠ []) :
    p.take r af =
      .ok ((p.cards_of r).getLast h, p.setBucket r ((p.cards_of r).dropLast)) := by
  rw [DraftPool.take.eq_def]
  simp only [empty_false_of h, Bool.false_eq_true, if_false]
  split
  case h_1 cp heq =>
    rw [vecPop_ne_nil h] at heq
    obtain ⟨h1, h2⟩ := Prod.mk.injEq .. ▸ Option.some.injEq .. ▸ heq
    simp [← h1, ← h2]
  case h_2 heq =>
    rw [vecPop_ne_nil h] at heq
    cases heq

theorem take_fallback_eq (p : DraftPool) (r : Rarity) (af : Bool) (fb : Rarity)
    (hr : p.cards_of r = []) (hne : p.empty = false)
    (hc : af = true ∨ (r = Rarity.Mythic ∧ p.rares ≠ []))
    (hfb : p.replacement_rarity r = some fb) :
    p.take r af = p.take fb false := by
  rw [DraftPool.take.eq_def]
  simp only [hne, Bool.false_eq_true, if_false]
  split
  case h_1 cp heq =>
    rw [hr] at heq
    cases heq
  case h_2 heq =>
    rw [if_pos hc]
    split
    case h_1 fb' heq2 =>
      rw [hfb] at heq2
      cases heq2
      rfl
    case h_2 heq2 =>
      rw [hfb] at heq2
      cases heq2

theorem take_no_fallback (p : DraftPool) (r : Rarity) (af : Bool)
    (hr : p.cards_of r = []) (hne : p.empty = false)
    (hc : ¬(af = true ∨ (r = Rarity.Mythic ∧ p.rares ≠ []))) :
    p.take r af = .error "Insufficient cards in pool." := by
  rw [DraftPool.take.eq_def]
  simp only [hne, Bool.false_eq_true, if_false]
  split
  case h_1 cp heq =>
    rw [hr] at heq
    cases heq
  case h_2 heq =>
    rw [if_neg hc]

theorem take_fallback_none (p : DraftPool) (r : Rarity) (af : Bool)
    (hr : p.cards_of r = []) (hne : p.empty = false)
    (hc : af = true ∨ (r = Rarity.Mythic ∧ p.rares ≠ []))
    (hfb : p.replacement_rarity r = none) :
    p.take r af = .error ("Insufficient " ++ rarityName r ++ "s in pool.") := by
  rw [DraftPool.take.eq_def]
  simp only [hne, Bool.false_eq_true, if_false]
  split
  case h_1 cp heq =>
    rw [hr] at heq
    cases heq
  case h_2 heq =>
    rw [if_pos hc]
    split
    case h_1 fb' heq2 =>
      rw [hfb] at heq2
      cases heq2
    case h_2 heq2 =>
      rfl

theorem replacement_rarity_nonempty {p : DraftPool} {r fb : Rarity}
    (h : p.replacement_rarity r = some fb) : p.cards_of fb ≠ [] := by
  have := List.find?_some h
  simp only [Bool.not_eq_true', List.isEmpty_eq_false_iff_exists_mem] at this
  intro hnil
  rw [hnil] at this
  simp at this

theorem replacement_rarity_isSome (p : DraftPool) (r : Rarity)
    (hne : p.empty = false) (hr : r ≠ Rarity.Special ∧ r ≠ Rarity.Bonus) :
    ∃ fb, p.replacement_rarity r = some fb := by
  have hb : p.mythics ≠ [] ∨ p.rares ≠ [] ∨ p.uncommons ≠ [] ∨ p.commons ≠ [] := by
    by_contra hc
    push_neg at hc
    obtain ⟨h1, h2, h3, h4⟩ := hc
    simp [DraftPool.empty, h1, h2, h3, h4] at hne
  rw [← Option.isSome_iff_exists]
  rw [DraftPool.replacement_rarity, List.find?_isSome]
  rcases hb with h | h | h | h <;> cases r <;>
    simp_all [DraftPool.priorityList, DraftPool.cards_of]

theorem roll_of_choose_some (ch : Chooser) (p : DraftPool) (r : Rarity)
    (af : Bool) (c : Card) (h : ch.choose (p.cards_of r) = some c) :
    p.roll ch r af = .ok c := by
  rw [DraftPool.roll.eq_def]
  split
  case h_1 c' heq =>
    rw [h] at heq
    cases heq
    rfl
  case h_2 heq =>
    rw [h] at heq
    cases heq

theorem roll_of_bucket_ne_nil (ch : Chooser) (p : DraftPool) (r : Rarity)
    (af : Bool) (h : p.cards_of r ≠ []) :
    ∃ c, ch.choose (p.cards_of r) = some c ∧ p.roll ch r af = .ok c ∧
      c ∈ p.cards_of r := by
  cases hch : ch.choose (p.cards_of r) with
  | none => exact absurd ((ch.choose_none _).mp hch) h
  | some c =>
    exact ⟨c, rfl, roll_of_choose_some ch p r af c hch, ch.choose_mem _ c hch⟩

theorem roll_fallback_eq (ch : Chooser) (p : DraftPool) (r : Rarity) (af : Bool)
    (fb : Rarity) (hr : p.cards_of r = [])
    (hc : af = true ∨ (r = Rarity.Mythic ∧ p.rares ≠ []))
    (hfb : p.replacement_rarity r = some fb) :
    p.roll ch r af = p.roll ch fb false := by
  rw [DraftPool.roll.eq_def]
  split
  case h_1 c' heq =>
    have := ch.choose_mem _ _ heq
    rw [hr] at this
    simp at this
  case h_2 heq =>
    rw [if_pos hc]
    split
    case h_1 fb' heq2 =>
      rw [hfb] at heq2
      cases heq2
      rfl
    case h_2 heq2 =>
      rw [hfb] at heq2
      cases heq2

theorem roll_no_fallback (ch : Chooser) (p : DraftPool) (r : Rarity) (af : Bool)
    (hr : p.cards_of r = [])
    (hc : ¬(af = true ∨ (r = Rarity.Mythic ∧ p.rares ≠ []))) :
    p.roll ch r af = .error "Insufficient cards in pool." := by
  rw [DraftPool.roll.eq_def]
  split
  case h_1 c' heq =>
    have := ch.choose_mem _ _ heq
    rw [hr] at this
    simp at this
  case h_2 heq =>
    rw [if_neg hc]

theorem roll_fallback_none (ch : Chooser) (p : DraftPool) (r : Rarity) (af : Bool)
    (hr : p.cards_of r = [])
    (hc : af = true ∨ (r = Rarity.Mythic ∧ p.rares ≠ []))
    (hfb : p.replacement_rarity r = none) :
    p.roll ch r af = .error ("Insufficient " ++ rarityName r ++ "s in pool.") := by
  rw [DraftPool.roll.eq_def]
  split
  case h_1 c' heq =>
    have := ch.choose_mem _ _ heq
    rw [hr] at this
    simp at this
  case h_2 heq =>
    rw [if_pos hc]
    split
    case h_1 fb' heq2 =>
      rw [hfb] at heq2
      cases heq2
    case h_2 heq2 =>
      rfl

/-- A pool is well formed when every card sits in the bucket of its own
rarity, as guaranteed by `DraftPool::add`. -/
def WellFormed (p : DraftPool) : Prop :=
  (∀ c ∈ p.mythics, c.rarity = Rarity.Mythic) ∧
    (∀ c ∈ p.rares, c.rarity = Rarity.Rare) ∧
    (∀ c ∈ p.uncommons, c.rarity = Rarity.Uncommon) ∧
    (∀ c ∈ p.commons, c.rarity = Rarity.Common)

instance (p : DraftPool) : Decidable (WellFormed p) := by
  unfold WellFormed
  infer_instance

theorem WellFormed.cards_of {p : DraftPool} (h : WellFormed p) (r : Rarity) :
    ∀ c ∈ p.cards_of r, c.rarity = r := by
  obtain ⟨h1, h2, h3, h4⟩ := h
  cases r <;> simp_all [DraftPool.cards_of]

theorem WellFormed.setBucket {p : DraftPool} (h : WellFormed p) (r : Rarity)
    (l : List Card) (hl : ∀ c ∈ l, c.rarity = r) :
    WellFormed (p.setBucket r l) := by
  obtain ⟨h1, h2, h3, h4⟩ := h
  cases r <;> exact ⟨by simp_all [DraftPool.setBucket], by simp_all [DraftPool.setBucket],
    by simp_all [DraftPool.setBucket], by simp_all [DraftPool.setBucket]⟩

end DraftPool

/-- The randomness consumed by the pack builder, made explicit: the
`shuffle` permutation applied by `SliceRandom::shuffle`, the stream of
`gen_range(0.0..=1.0)` draws (one per rare slot, indexed by overall slot
number), and the element chooser used by `SliceRandom::choose`. -/
structure Oracle where
  shuffle : List Card → List Card
  draws : Nat → ℚ
  ch : DraftPool.Chooser

/-- The `for _ in 0..n` loop of uncommon and common slots in
`make_cube_packs_rarities`: take `n` cards of rarity `r` in sequence. -/
def takeCount (r : Rarity) (af : Bool) : DraftPool → Nat → Except String (List Card × DraftPool)
  | p, 0 => .ok ([], p)
  | p, n + 1 =>
    match p.take r af with
    | .error e => .error e
    | .ok (c, p') =>
      match takeCount r af p' n with
      | .error e => .error e
      | .ok (cs, p'') => .ok (c :: cs, p'')

/-- The rare-slot loop of `make_cube_packs_rarities`: each slot draws from
the Mythic bucket when the next unit draw is below `mythic_rate`, else from
the Rare bucket.  `base` is the index of the next unconsumed draw. -/
def takeRareSlots (rate : ℚ) (af : Bool) (draws : Nat → ℚ) :
    DraftPool → Nat → Nat → Except String (List Card × DraftPool)
  | p, _, 0 => .ok ([], p)
  | p, base, n + 1 =>
    match (if draws base < rate then p.take .Mythic af else p.take .Rare af) with
    | .error e => .error e
    | .ok (c, p') =>
      match takeRareSlots rate af draws p' (base + 1) n with
      | .error e => .error e
      | .ok (cs, p'') => .ok (c :: cs, p'')

/-- One pack body of `make_cube_packs_rarities`: rare slots, then uncommon
slots, then common slots, pushed in that order. -/
def buildRarityPack (config : DraftConfig) (draws : Nat → ℚ) (p : DraftPool)
    (base : Nat) : Except String (Pack × DraftPool) :=
  match takeRareSlots config.mythic_rate config.allow_fallback draws p base config.rares with
  | .error e => .error e
  | .ok (rs, p1) =>
    match takeCount .Uncommon config.allow_fallback p1 config.uncommons with
    | .error e => .error e
    | .ok (us, p2) =>
      match takeCount .Common config.allow_fallback p2 config.commons with
      | .error e => .error e
      | .ok (cs, p3) => .ok (rs ++ us ++ cs, p3)

/-- The pack loop of `make_cube_packs_rarities`: `count` packs remain and
`k` packs have been built, so pack `k` consumes draws starting at
`k * config.rares`. -/
def buildRarityPacks (config : DraftConfig) (draws : Nat → ℚ) :
    DraftPool → Nat → Nat → Except String (List Pack × DraftPool)
  | p, _, 0 => .ok ([], p)
  | p, k, count + 1 =>
    match buildRarityPack config draws p (k * config.rares) with
    | .error e => .error e
    | .ok (pack, p') =>
      match buildRarityPacks config draws p' (k + 1) count with
      | .error e => .error e
      | .ok (packs, p'') => .ok (pack :: packs, p'')

/-- `make_cube_packs_rarities`: shuffle each bucket, then build
`players * config.rounds` packs slot by slot with destructive `take`. -/
def make_cube_packs_rarities (o : Oracle) (players : Nat) (config : DraftConfig)
    (pool : DraftPool) : Except String (List Pack) :=
  let p : DraftPool :=
    { mythics := o.shuffle pool.mythics
      rares := o.shuffle pool.rares
      uncommons := o.shuffle pool.uncommons
      commons := o.shuffle pool.commons }
  (buildRarityPacks config o.draws p 0 (players * config.rounds)).map Prod.fst

/-- The inner loop of `make_cube_packs_no_rarities`: pop `n` cards off the
tail of the shuffled sequence. -/
def popCards : List Card → Nat → Except String (List Card × List Card)
  | cards, 0 => .ok ([], cards)
  | cards, n + 1 =>
    match vecPop cards with
    | some (c, rest) =>
      match popCards rest n with
      | .error e => .error e
      | .ok (pk, rem) => .ok (c :: pk, rem)
    | none => .error "Insufficient cards in pool."

/-- The pack loop of `make_cube_packs_no_rarities`. -/
def buildNoRarityPacks (cpp : Nat) : List Card → Nat → Except String (List Pack × List Card)
  | cards, 0 => .ok ([], cards)
  | cards, k + 1 =>
    match popCards cards cpp with
    | .error e => .error e
    | .ok (pack, rest) =>
      match buildNoRarityPacks cpp rest k with
      | .error e => .error e
      | .ok (packs, rem) => .ok (pack :: packs, rem)

/-- `make_cube_packs_no_rarities`: concatenate all four buckets in order,
shuffle, and deal `cards_per_pack` cards per pack off the tail. -/
def make_cube_packs_no_rarities (o : Oracle) (players : Nat)
    (config : DraftConfig) (pool : DraftPool) : Except String (List Pack) :=
  let cards := o.shuffle (pool.mythics ++ pool.rares ++ pool.uncommons ++ pool.commons)
  (buildNoRarityPacks config.cards_per_pack cards (players * config.rounds)).map Prod.fst

/-- The uncommon and common slot loops of `make_draft_packs`:
non-destructive rolls, so the pool is never consumed. -/
def rollCount (ch : DraftPool.Chooser) (p : DraftPool) (r : Rarity) (af : Bool) :
    Nat → Except String (List Card)
  | 0 => .ok []
  | n + 1 =>
    match p.roll ch r af with
    | .error e => .error e
    | .ok c =>
      match rollCount ch p r af n with
      | .error e => .error e
      | .ok cs => .ok (c :: cs)

/-- The rare-slot loop of `make_draft_packs`. -/
def rollRareSlots (ch : DraftPool.Chooser) (p : DraftPool) (rate : ℚ) (af : Bool)
    (draws : Nat → ℚ) : Nat → Nat → Except String (List Card)
  | _, 0 => .ok []
  | base, n + 1 =>
    match (if draws base < rate then p.roll ch .Mythic af else p.roll ch .Rare af) with
    | .error e => .error e
    | .ok c =>
      match rollRareSlots ch p rate af draws (base + 1) n with
      | .error e => .error e
      | .ok cs => .ok (c :: cs)

/-- One pack body of `make_draft_packs`. -/
def buildDraftPack (ch : DraftPool.Chooser) (config : DraftConfig)
    (draws : Nat → ℚ) (p : DraftPool) (base : Nat) : Except String Pack :=
  match rollRareSlots ch p config.mythic_rate config.allow_fallback draws base config.rares with
  | .error e => .error e
  | .ok rs =>
    match rollCount ch p .Uncommon config.allow_fallback config.uncommons with
    | .error e => .error e
    | .ok us =>
      match rollCount ch p .Common config.allow_fallback config.commons with
      | .error e => .error e
      | .ok cs => .ok (rs ++ us ++ cs)

/-- The pack loop of `make_draft_packs`. -/
def buildDraftPacks (ch : DraftPool.Chooser) (config : DraftConfig)
    (draws : Nat → ℚ) (p : DraftPool) : Nat → Nat → Except String (List Pack)
  | _, 0 => .ok []
  | k, count + 1 =>
    match buildDraftPack ch config draws p (k * config.rares) with
    | .error e => .error e
    | .ok pack =>
      match buildDraftPacks ch config draws p (k + 1) count with
      | .error e => .error e
      | .ok packs => .ok (pack :: packs)

/-- `make_draft_packs`: booster mode with replacement; every slot is a
non-destructive `roll` against the shared, unconsumed pool. -/
def make_draft_packs (o : Oracle) (players : Nat) (config : DraftConfig)
    (pool : DraftPool) : Except String (List Pack) :=
  buildDraftPacks o.ch config o.draws pool 0 (players * config.rounds)

/-- `make_packs`: dispatch on `(unique_cards, use_rarities)`. -/
def make_packs (o : Oracle) (players : Nat) (config : DraftConfig)
    (pool : DraftPool) : Except String (List Pack) :=
  if config.unique_cards then
    if config.use_rarities then make_cube_packs_rarities o players config pool
    else make_cube_packs_no_rarities o players config pool
  else make_draft_packs o players config pool

namespace DraftPool

theorem replacement_rarity_mythic {p : DraftPool} (hM : p.mythics = [])
    (hR : p.rares ≠ []) : p.replacement_rarity .Mythic = some .Rare := by
  have hre : p.rares.isEmpty = false := by
    simp [List.isEmpty_iff, hR]
  simp [DraftPool.replacement_rarity, DraftPool.priorityList, DraftPool.cards_of,
    List.find?, hM, hre]

theorem take_mythic_pop (p : DraftPool) (af : Bool) (h : p.mythics ≠ []) :
    p.take .Mythic af =
      .ok (p.mythics.getLast h, { p with mythics := p.mythics.dropLast }) :=
  take_of_bucket_ne_nil p .Mythic af h

theorem take_rare (p : DraftPool) (af : Bool) (h : p.rares ≠ []) :
    p.take .Rare af =
      .ok (p.rares.getLast h, { p with rares := p.rares.dropLast }) :=
  take_of_bucket_ne_nil p .Rare af h

theorem take_uncommon (p : DraftPool) (af : Bool) (h : p.uncommons ≠ []) :
    p.take .Uncommon af =
      .ok (p.uncommons.getLast h, { p with uncommons := p.uncommons.dropLast }) :=
  take_of_bucket_ne_nil p .Uncommon af h

theorem take_common (p : DraftPool) (af : Bool) (h : p.commons ≠ []) :
    p.take .Common af =
      .ok (p.commons.getLast h, { p with commons := p.commons.dropLast }) :=
  take_of_bucket_ne_nil p .Common af h

theorem take_mythic_upgrade (p : DraftPool) (af : Bool) (hM : p.mythics = [])
    (hR : p.rares ≠ []) :
    p.take .Mythic af =
      .ok (p.rares.getLast hR, { p with rares := p.rares.dropLast }) := by
  rw [take_fallback_eq p .Mythic af .Rare hM (empty_false_of (r := .Rare) hR)
    (Or.inr ⟨rfl, hR⟩) (replacement_rarity_mythic hM hR)]
  exact take_rare p false hR

end DraftPool

open DraftPool in
theorem takeCount_uncommon_spec (af : Bool) :
    ∀ (n : Nat) (p : DraftPool), n ≤ p.uncommons.length →
    ∃ cs p', takeCount .Uncommon af p n = .ok (cs, p') ∧ cs.length = n ∧
      p'.mythics = p.mythics ∧ p'.rares = p.rares ∧ p'.commons = p.commons ∧
      p'.uncommons.length + n = p.uncommons.length ∧
      (WellFormed p → WellFormed p') := by
  intro n
  induction n with
  | zero =>
    intro p _
    exact ⟨[], p, rfl, rfl, rfl, rfl, rfl, by simp, fun hw => hw⟩
  | succ n ih =>
    intro p h
    have hne : p.uncommons ≠ [] := by
      intro hc
      rw [hc] at h
      simp at h
    obtain ⟨cs, p', heq, hlen, hm, hr, hc, hu, hwf⟩ :=
      ih { p with uncommons := p.uncommons.dropLast }
        (by show n ≤ p.uncommons.dropLast.length; simp only [List.length_dropLast]; omega)
    refine ⟨p.uncommons.getLast hne :: cs, p', ?_, by simp [hlen], hm, hr, hc, ?_, ?_⟩
    · simp only [takeCount, take_uncommon p af hne, heq]
    · have hu2 : p'.uncommons.length + n = p.uncommons.dropLast.length := hu
      simp only [List.length_dropLast] at hu2
      have hpos : p.uncommons.length ≠ 0 := by
        simpa [List.length_eq_zero] using hne
      omega
    · intro hw
      exact hwf ⟨hw.1, hw.2.1,
        fun c hcm => hw.2.2.1 c (List.dropLast_subset _ hcm), hw.2.2.2⟩

open DraftPool in
theorem takeCount_common_spec (af : Bool) :
    ∀ (n : Nat) (p : DraftPool), n ≤ p.commons.length →
    ∃ cs p', takeCount .Common af p n = .ok (cs, p') ∧ cs.length = n ∧
      p'.mythics = p.mythics ∧ p'.rares = p.rares ∧ p'.uncommons = p.uncommons ∧
      p'.commons.length + n = p.commons.length ∧
      (WellFormed p → WellFormed p') := by
  intro n
  induction n with
  | zero =>
    intro p _
    exact ⟨[], p, rfl, rfl, rfl, rfl, rfl, by simp, fun hw => hw⟩
  | succ n ih =>
    intro p h
    have hne : p.commons ≠ [] := by
      intro hc
      rw [hc] at h
      simp at h
    obtain ⟨cs, p', heq, hlen, hm, hr, hu, hc, hwf⟩ :=
      ih { p with commons := p.commons.dropLast }
        (by show n ≤ p.commons.dropLast.length; simp only [List.length_dropLast]; omega)
    refine ⟨p.commons.getLast hne :: cs, p', ?_, by simp [hlen], hm, hr, hu, ?_, ?_⟩
    · simp only [takeCount, take_common p af hne, heq]
    · have hc2 : p'.commons.length + n = p.commons.dropLast.length := hc
      simp only [List.length_dropLast] at hc2
      have hpos : p.commons.length ≠ 0 := by
        simpa [List.length_eq_zero] using hne
      omega
    · intro hw
      exact hwf ⟨hw.1, hw.2.1, hw.2.2.1,
        fun c hcm => hw.2.2.2 c (List.dropLast_subset _ hcm)⟩

open DraftPool in
theorem takeRareSlots_spec (rate : ℚ) (af : Bool) (draws : Nat → ℚ) :
    ∀ (n : Nat) (p : DraftPool) (base : Nat), n ≤ p.rares.length →
    ∃ cs p', takeRareSlots rate af draws p base n = .ok (cs, p') ∧
      cs.length = n ∧ p'.uncommons = p.uncommons ∧ p'.commons = p.commons ∧
      p.rares.length ≤ p'.rares.length + n ∧
      (WellFormed p → WellFormed p') := by
  intro n
  induction n with
  | zero =>
    intro p base _
    exact ⟨[], p, rfl, rfl, rfl, rfl, by omega, fun hw => hw⟩
  | succ n ih =>
    intro p base h
    have hR : p.rares ≠ [] := by
      intro hcn
      rw [hcn] at h
      simp at h
    have hRlen : p.rares.length ≠ 0 := by
      simpa [List.length_eq_zero] using hR
    by_cases hd : draws base < rate
    · by_cases hM : p.mythics = []
      · obtain ⟨cs, p', heq, hlen, hu, hc, hr, hwf⟩ :=
          ih { p with rares := p.rares.dropLast } (base + 1)
            (by show n ≤ p.rares.dropLast.length; simp only [List.length_dropLast]; omega)
        refine ⟨p.rares.getLast hR :: cs, p', ?_, by simp [hlen], hu, hc, ?_, ?_⟩
        · simp only [takeRareSlots, if_pos hd, take_mythic_upgrade p af hM hR, heq]
        · have hr2 : p.rares.dropLast.length ≤ p'.rares.length + n := hr
          simp only [List.length_dropLast] at hr2
          omega
        · intro hw
          exact hwf ⟨hw.1, fun c hcm => hw.2.1 c (List.dropLast_subset _ hcm),
            hw.2.2.1, hw.2.2.2⟩
      · obtain ⟨cs, p', heq, hlen, hu, hc, hr, hwf⟩ :=
          ih { p with mythics := p.mythics.dropLast } (base + 1)
            (by show n ≤ p.rares.length; omega)
        refine ⟨p.mythics.getLast hM :: cs, p', ?_, by simp [hlen], hu, hc, ?_, ?_⟩
        · simp only [takeRareSlots, if_pos hd, take_mythic_pop p af hM, heq]
        · have hr2 : p.rares.length ≤ p'.rares.length + n := hr
          omega
        · intro hw
          exact hwf ⟨fun c hcm => hw.1 c (List.dropLast_subset _ hcm), hw.2.1,
            hw.2.2.1, hw.2.2.2⟩
    · obtain ⟨cs, p', heq, hlen, hu, hc, hr, hwf⟩ :=
        ih { p with rares := p.rares.dropLast } (base + 1)
          (by show n ≤ p.rares.dropLast.length; simp only [List.length_dropLast]; omega)
      refine ⟨p.rares.getLast hR :: cs, p', ?_, by simp [hlen], hu, hc, ?_, ?_⟩
      · simp only [takeRareSlots, if_neg hd, take_rare p af hR, heq]
      · have hr2 : p.rares.dropLast.length ≤ p'.rares.length + n := hr
        simp only [List.length_dropLast] at hr2
        omega
      · intro hw
        exact hwf ⟨hw.1, fun c hcm => hw.2.1 c (List.dropLast_subset _ hcm),
          hw.2.2.1, hw.2.2.2⟩

open DraftPool in
theorem takeRareSlots_all_mythic (rate : ℚ) (af : Bool) (draws : Nat → ℚ)
    (hall : ∀ k, draws k < rate) :
    ∀ (n : Nat) (p : DraftPool) (base : Nat), n ≤ p.mythics.length →
    WellFormed p →
    ∃ cs p', takeRareSlots rate af draws p base n = .ok (cs, p') ∧
      cs.length = n ∧ (∀ c ∈ cs, c.rarity = Rarity.Mythic) ∧
      p'.rares = p.rares ∧ p'.uncommons = p.uncommons ∧ p'.commons = p.commons ∧
      p'.mythics.length + n = p.mythics.length ∧ WellFormed p' := by
  intro n
  induction n with
  | zero =>
    intro p base _ hw
    exact ⟨[], p, rfl, rfl, by simp, rfl, rfl, rfl, by simp, hw⟩
  | succ n ih =>
    intro p base h hw
    have hM : p.mythics ≠ [] := by
      intro hcn
      rw [hcn] at h
      simp at h
    have hMlen : p.mythics.length ≠ 0 := by
      simpa [List.length_eq_zero] using hM
    obtain ⟨cs, p', heq, hlen, hmy, hr, hu, hc, hml, hwf⟩ :=
      ih { p with mythics := p.mythics.dropLast } (base + 1)
        (by show n ≤ p.mythics.dropLast.length; simp only [List.length_dropLast]; omega)
        ⟨fun c hcm => hw.1 c (List.dropLast_subset _ hcm), hw.2.1, hw.2.2.1, hw.2.2.2⟩
    refine ⟨p.mythics.getLast hM :: cs, p', ?_, by simp [hlen], ?_, hr, hu, hc, ?_, hwf⟩
    · simp only [takeRareSlots, if_pos (hall base), take_mythic_pop p af hM, heq]
    · intro c hcm
      rcases List.mem_cons.mp hcm with hceq | hcin
      · rw [hceq]
        exact hw.1 _ (List.getLast_mem hM)
      · exact hmy c hcin
    · have hml2 : p'.mythics.length + n = p.mythics.dropLast.length := hml
      simp only [List.length_dropLast] at hml2
      omega

open DraftPool in
theorem buildRarityPack_spec (config : DraftConfig) (draws : Nat → ℚ)
    (p : DraftPool) (base : Nat)
    (hr : config.rares ≤ p.rares.length)
    (hu : config.uncommons ≤ p.uncommons.length)
    (hc : config.commons ≤ p.commons.length) :
    ∃ pk p', buildRarityPack config draws p base = .ok (pk, p') ∧
      pk.length = config.rares + config.uncommons + config.commons ∧
      p.rares.length ≤ p'.rares.length + config.rares ∧
      p'.uncommons.length + config.uncommons = p.uncommons.length ∧
      p'.commons.length + config.commons = p.commons.length ∧
      (WellFormed p → WellFormed p') := by
  obtain ⟨rs, p1, h1, hl1, hu1, hc1, hr1, hw1⟩ :=
    takeRareSlots_spec config.mythic_rate config.allow_fallback draws
      config.rares p base hr
  obtain ⟨us, p2, h2, hl2, hm2, hr2, hc2, hul2, hw2⟩ :=
    takeCount_uncommon_spec config.allow_fallback config.uncommons p1
      (by rw [hu1]; exact hu)
  obtain ⟨cs, p3, h3, hl3, hm3, hr3, hu3, hcl3, hw3⟩ :=
    takeCount_common_spec config.allow_fallback config.commons p2
      (by rw [hc2, hc1]; exact hc)
  refine ⟨rs ++ us ++ cs, p3, ?_, ?_, ?_, ?_, ?_, ?_⟩
  · simp only [buildRarityPack, h1, h2, h3]
  · simp only [List.length_append, hl1, hl2, hl3]
  · have e1 : p3.rares.length = p1.rares.length := by rw [hr3, hr2]
    omega
  · have e1 : p3.uncommons.length = p2.uncommons.length := by rw [hu3]
    have e2 : p2.uncommons.length + config.uncommons = p.uncommons.length := by
      rw [← hu1]
      exact hul2
    omega
  · have e1 : p3.commons.length + config.commons = p2.commons.length := hcl3
    have e2 : p2.commons.length = p.commons.length := by rw [hc2, hc1]
    omega
  · intro hw
    exact hw3 (hw2 (hw1 hw))

open DraftPool in
theorem buildRarityPacks_spec (config : DraftConfig) (draws : Nat → ℚ) :
    ∀ (count : Nat) (p : DraftPool) (k : Nat),
    count * config.rares ≤ p.rares.length →
    count * config.uncommons ≤ p.uncommons.length →
    count * config.commons ≤ p.commons.length →
    ∃ packs p', buildRarityPacks config draws p k count = .ok (packs, p') ∧
      packs.length = count ∧
      ∀ pk ∈ packs, pk.length = config.rares + config.uncommons + config.commons := by
  intro count
  induction count with
  | zero =>
    intro p k _ _ _
    exact ⟨[], p, rfl, rfl, by simp⟩
  | succ count ih =>
    intro p k hr hu hc
    rw [Nat.succ_mul] at hr hu hc
    obtain ⟨pk, p', hpk, hpl, hpr, hpu, hpc, _⟩ :=
      buildRarityPack_spec config draws p (k * config.rares)
        (by omega) (by omega) (by omega)
    obtain ⟨packs, p'', hpacks, hplen, hall⟩ :=
      ih p' (k + 1) (by omega) (by omega) (by omega)
    refine ⟨pk :: packs, p'', ?_, by simp [hplen], ?_⟩
    · simp only [buildRarityPacks, hpk, hpacks]
    · intro q hq
      rcases List.mem_cons.mp hq with hql | hqr
      · rw [hql]
        exact hpl
      · exact hall q hqr

open DraftPool in
theorem buildRarityPack_mythic (config : DraftConfig) (draws : Nat → ℚ)
    (p : DraftPool) (base : Nat)
    (hall : ∀ k, draws k < config.mythic_rate)
    (hw : WellFormed p)
    (hm : config.rares ≤ p.mythics.length)
    (hu : config.uncommons ≤ p.uncommons.length)
    (hc : config.commons ≤ p.commons.length) :
    ∃ pk p', buildRarityPack config draws p base = .ok (pk, p') ∧
      config.rares ≤ pk.countP (fun c => decide (c.rarity = Rarity.Mythic)) ∧
      p'.mythics.length + config.rares = p.mythics.length ∧
      p'.uncommons.length + config.uncommons = p.uncommons.length ∧
      p'.commons.length + config.commons = p.commons.length ∧
      WellFormed p' := by
  obtain ⟨rs, p1, h1, hl1, hmy1, hrr1, hu1, hc1, hml1, hw1⟩ :=
    takeRareSlots_all_mythic config.mythic_rate config.allow_fallback draws hall
      config.rares p base hm hw
  obtain ⟨us, p2, h2, hl2, hm2, hr2, hc2, hul2, hw2⟩ :=
    takeCount_uncommon_spec config.allow_fallback config.uncommons p1
      (by rw [hu1]; exact hu)
  obtain ⟨cs, p3, h3, hl3, hm3, hr3, hu3, hcl3, hw3⟩ :=
    takeCount_common_spec config.allow_fallback config.commons p2
      (by rw [hc2, hc1]; exact hc)
  refine ⟨rs ++ us ++ cs, p3, ?_, ?_, ?_, ?_, ?_, hw3 (hw2 hw1)⟩
  · simp only [buildRarityPack, h1, h2, h3]
  · have hcount : rs.countP (fun c => decide (c.rarity = Rarity.Mythic)) = rs.length := by
      rw [List.countP_eq_length]
      intro a ha
      simp [hmy1 a ha]
    calc config.rares = rs.countP (fun c => decide (c.rarity = Rarity.Mythic)) := by
          rw [hcount, hl1]
      _ ≤ (rs ++ us ++ cs).countP (fun c => decide (c.rarity = Rarity.Mythic)) := by
          simp [List.countP_append]
  · have e1 : p3.mythics.length = p1.mythics.length := by rw [hm3, hm2]
    omega
  · have e1 : p3.uncommons.length = p2.uncommons.length := by rw [hu3]
    have e2 : p2.uncommons.length + config.uncommons = p1.uncommons.length := hul2
    have e3 : p1.uncommons = p.uncommons := hu1
    have e4 : p1.uncommons.length = p.uncommons.length := by rw [e3]
    omega
  · have e1 : p3.commons.length + config.commons = p2.commons.length := hcl3
    have e2 : p2.commons.length = p1.commons.length := by rw [hc2]
    have e3 : p1.commons.length = p.commons.length := by rw [hc1]
    omega

open DraftPool in
theorem buildRarityPacks_mythic (config : DraftConfig) (draws : Nat → ℚ)
    (hall : ∀ k, draws k < config.mythic_rate) :
    ∀ (count : Nat) (p : DraftPool) (k : Nat), WellFormed p →
    count * config.rares ≤ p.mythics.length →
    count * config.uncommons ≤ p.uncommons.length →
    count * config.commons ≤ p.commons.length →
    ∃ packs p', buildRarityPacks config draws p k count = .ok (packs, p') ∧
      ∀ pk ∈ packs,
        config.rares ≤ pk.countP (fun c => decide (c.rarity = Rarity.Mythic)) := by
  intro count
  induction count with
  | zero =>
    intro p k _ _ _ _
    exact ⟨[], p, rfl, by simp⟩
  | succ count ih =>
    intro p k hw hm hu hc
    rw [Nat.succ_mul] at hm hu hc
    obtain ⟨pk, p', hpk, hpcnt, hpm, hpu, hpc, hw'⟩ :=
      buildRarityPack_mythic config draws p (k * config.rares) hall hw
        (by omega) (by omega) (by omega)
    obtain ⟨packs, p'', hpacks, hall2⟩ :=
      ih p' (k + 1) hw' (by omega) (by omega) (by omega)
    refine ⟨pk :: packs, p'', ?_, ?_⟩
    · simp only [buildRarityPacks, hpk, hpacks]
    · intro q hq
      rcases List.mem_cons.mp hq with hql | hqr
      · rw [hql]
        exact hpcnt
      · exact hall2 q hqr

theorem popCards_spec :
    ∀ (n : Nat) (cards : List Card), n ≤ cards.length →
    ∃ pk rest, popCards cards n = .ok (pk, rest) ∧ pk.length = n ∧
      rest.length + n = cards.length := by
  intro n
  induction n with
  | zero =>
    intro cards _
    exact ⟨[], cards, rfl, rfl, by simp⟩
  | succ n ih =>
    intro cards h
    have hne : cards ≠ [] := by
      intro hcn
      rw [hcn] at h
      simp at h
    have hlen : cards.length ≠ 0 := by
      simpa [List.length_eq_zero] using hne
    obtain ⟨pk, rest, heq, hl, hr⟩ := ih cards.dropLast
      (by simp only [List.length_dropLast]; omega)
    refine ⟨cards.getLast hne :: pk, rest, ?_, by simp [hl], ?_⟩
    · simp only [popCards, vecPop_ne_nil hne, heq]
    · simp only [List.length_dropLast] at hr
      omega

theorem buildNoRarityPacks_spec (cpp : Nat) :
    ∀ (count : Nat) (cards : List Card), count * cpp ≤ cards.length →
    ∃ packs rest, buildNoRarityPacks cpp cards count = .ok (packs, rest) ∧
      packs.length = count ∧ ∀ pk ∈ packs, pk.length = cpp := by
  intro count
  induction count with
  | zero =>
    intro cards _
    exact ⟨[], cards, rfl, rfl, by simp⟩
  | succ count ih =>
    intro cards h
    rw [Nat.succ_mul] at h
    obtain ⟨pk, rest, hpk, hpl, hrl⟩ := popCards_spec cpp cards (by omega)
    obtain ⟨packs, rem, hpacks, hplen, hall⟩ := ih rest (by omega)
    refine ⟨pk :: packs, rem, ?_, by simp [hplen], ?_⟩
    · simp only [buildNoRarityPacks, hpk, hpacks]
    · intro q hq
      rcases List.mem_cons.mp hq with hql | hqr
      · rw [hql]
        exact hpl
      · exact hall q hqr

open DraftPool in
theorem rollCount_spec (ch : Chooser) (p : DraftPool) (r : Rarity) (af : Bool) :
    ∀ n : Nat, (n ≠ 0 → p.cards_of r ≠ []) →
    ∃ cs, rollCount ch p r af n = .ok cs ∧ cs.length = n := by
  intro n
  induction n with
  | zero => exact fun _ => ⟨[], rfl, rfl⟩
  | succ n ih =>
    intro h
    obtain ⟨c, _, hroll, _⟩ := roll_of_bucket_ne_nil ch p r af (h (by omega))
    obtain ⟨cs, heq, hl⟩ := ih (fun hn => h (by omega))
    exact ⟨c :: cs, by simp only [rollCount, hroll, heq], by simp [hl]⟩

open DraftPool in
theorem roll_rare_slot_ok (ch : Chooser) (p : DraftPool) (af : Bool)
    (hR : p.rares ≠ []) (r : Rarity) (hr : r = Rarity.Mythic ∨ r = Rarity.Rare) :
    ∃ c, p.roll ch r af = .ok c := by
  rcases hr with hr | hr
  · subst hr
    by_cases hM : p.mythics = []
    · rw [roll_fallback_eq ch p .Mythic af .Rare hM (Or.inr ⟨rfl, hR⟩)
        (replacement_rarity_mythic hM hR)]
      obtain ⟨c, _, hc, _⟩ := roll_of_bucket_ne_nil ch p .Rare false hR
      exact ⟨c, hc⟩
    · obtain ⟨c, _, hc, _⟩ := roll_of_bucket_ne_nil ch p .Mythic af hM
      exact ⟨c, hc⟩
  · subst hr
    obtain ⟨c, _, hc, _⟩ := roll_of_bucket_ne_nil ch p .Rare af hR
    exact ⟨c, hc⟩

open DraftPool in
theorem rollRareSlots_spec (ch : Chooser) (p : DraftPool) (rate : ℚ) (af : Bool)
    (draws : Nat → ℚ) :
    ∀ (n : Nat) (base : Nat), (n ≠ 0 → p.rares ≠ []) →
    ∃ cs, rollRareSlots ch p rate af draws base n = .ok cs ∧ cs.length = n := by
  intro n
  induction n with
  | zero => exact fun base _ => ⟨[], rfl, rfl⟩
  | succ n ih =>
    intro base h
    have hR : p.rares ≠ [] := h (by omega)
    obtain ⟨cs, heq, hl⟩ := ih (base + 1) (fun hn => hR)
    by_cases hd : draws base < rate
    · obtain ⟨c, hroll⟩ := roll_rare_slot_ok ch p af hR .Mythic (Or.inl rfl)
      exact ⟨c :: cs, by simp only [rollRareSlots, if_pos hd, hroll, heq], by simp [hl]⟩
    · obtain ⟨c, hroll⟩ := roll_rare_slot_ok ch p af hR .Rare (Or.inr rfl)
      exact ⟨c :: cs, by simp only [rollRareSlots, if_neg hd, hroll, heq], by simp [hl]⟩

open DraftPool in
theorem buildDraftPack_spec (ch : Chooser) (config : DraftConfig)
    (draws : Nat → ℚ) (p : DraftPool) (base : Nat)
    (hR : config.rares ≠ 0 → p.rares ≠ [])
    (hU : config.uncommons ≠ 0 → p.uncommons ≠ [])
    (hC : config.commons ≠ 0 → p.commons ≠ []) :
    ∃ pk, buildDraftPack ch config draws p base = .ok pk ∧
      pk.length = config.rares + config.uncommons + config.commons := by
  obtain ⟨rs, h1, hl1⟩ :=
    rollRareSlots_spec ch p config.mythic_rate config.allow_fallback draws
      config.rares base hR
  obtain ⟨us, h2, hl2⟩ :=
    rollCount_spec ch p .Uncommon config.allow_fallback config.uncommons hU
  obtain ⟨cs, h3, hl3⟩ :=
    rollCount_spec ch p .Common config.allow_fallback config.commons hC
  refine ⟨rs ++ us ++ cs, ?_, ?_⟩
  · simp only [buildDraftPack, h1, h2, h3]
  · simp only [List.length_append, hl1, hl2, hl3]

open DraftPool in
theorem buildDraftPacks_spec (ch : Chooser) (config : DraftConfig)
    (draws : Nat → ℚ) (p : DraftPool) :
    ∀ (count : Nat) (k : Nat),
    (config.rares ≠ 0 → count ≠ 0 → p.rares ≠ []) →
    (config.uncommons ≠ 0 → count ≠ 0 → p.uncommons ≠ []) →
    (config.commons ≠ 0 → count ≠ 0 → p.commons ≠ []) →
    ∃ packs, buildDraftPacks ch config draws p k count = .ok packs ∧
      packs.length = count ∧
      ∀ pk ∈ packs, pk.length = config.rares + config.uncommons + config.commons := by
  intro count
  induction count with
  | zero => exact fun k _ _ _ => ⟨[], rfl, rfl, by simp⟩
  | succ count ih =>
    intro k hR hU hC
    obtain ⟨pk, hpk, hpl⟩ := buildDraftPack_spec ch config draws p
      (k * config.rares) (fun h => hR h (by omega)) (fun h => hU h (by omega))
      (fun h => hC h (by omega))
    obtain ⟨packs, hpacks, hplen, hall⟩ := ih (k + 1)
      (fun h hc => hR h (by omega)) (fun h hc => hU h (by omega))
      (fun h hc => hC h (by omega))
    refine ⟨pk :: packs, ?_, by simp [hplen], ?_⟩
    · simp only [buildDraftPacks, hpk, hpacks]
    · intro q hq
      rcases List.mem_cons.mp hq with hql | hqr
      · rw [hql]
        exact hpl
      · exact hall q hqr

/-- C1: with `rares + uncommons + commons = cards_per_pack` and a pool
holding at least the per-rarity requirement, `make_packs` returns Ok with
exactly `players * rounds` packs of `cards_per_pack` cards each, in all
three modes. -/
theorem make_packs_count (o : Oracle) (players : Nat) (config : DraftConfig)
    (pool : DraftPool)
    (hP : 1 ≤ players)
    (hsum : config.rares + config.uncommons + config.commons = config.cards_per_pack)
    (hshuffle : ∀ l : List Card, (o.shuffle l).Perm l)
    (hr : players * config.rounds * config.rares ≤ pool.rares.length)
    (hu : players * config.rounds * config.uncommons ≤ pool.uncommons.length)
    (hc : players * config.rounds * config.commons ≤ pool.commons.length) :
    ∃ packs, make_packs o players config pool = .ok packs ∧
      packs.length = players * config.rounds ∧
      ∀ pk ∈ packs, pk.length = config.cards_per_pack := by
  unfold make_packs
  cases huc : config.unique_cards
  · -- non-unique: make_draft_packs
    simp only [Bool.false_eq_true, if_false]
    have hR : config.rares ≠ 0 → players * config.rounds ≠ 0 → pool.rares ≠ [] := by
      intro hrne hcne hnil
      have h1 : 1 ≤ players * config.rounds * config.rares :=
        Nat.one_le_iff_ne_zero.mpr (Nat.mul_ne_zero hcne hrne)
      rw [hnil] at hr
      simp only [List.length_nil] at hr
      omega
    have hU : config.uncommons ≠ 0 → players * config.rounds ≠ 0 → pool.uncommons ≠ [] := by
      intro hrne hcne hnil
      have h1 : 1 ≤ players * config.rounds * config.uncommons :=
        Nat.one_le_iff_ne_zero.mpr (Nat.mul_ne_zero hcne hrne)
      rw [hnil] at hu
      simp only [List.length_nil] at hu
      omega
    have hC : config.commons ≠ 0 → players * config.rounds ≠ 0 → pool.commons ≠ [] := by
      intro hrne hcne hnil
      have h1 : 1 ≤ players * config.rounds * config.commons :=
        Nat.one_le_iff_ne_zero.mpr (Nat.mul_ne_zero hcne hrne)
      rw [hnil] at hc
      simp only [List.length_nil] at hc
      omega
    obtain ⟨packs, heq, hlen, hall⟩ :=
      buildDraftPacks_spec o.ch config o.draws pool (players * config.rounds) 0 hR hU hC
    refine ⟨packs, heq, hlen, ?_⟩
    intro pk hpk
    rw [hall pk hpk, hsum]
  · cases hur : config.use_rarities
    · -- unique, no rarities: make_cube_packs_no_rarities
      simp only [if_true, Bool.false_eq_true, if_false]
      have hlen2 :
          (o.shuffle (pool.mythics ++ pool.rares ++ pool.uncommons ++ pool.commons)).length =
            pool.mythics.length + pool.rares.length + pool.uncommons.length +
              pool.commons.length := by
        rw [(hshuffle _).length_eq]
        simp [List.length_append]
        omega
      have hexp : players * config.rounds * config.cards_per_pack =
          players * config.rounds * config.rares +
            players * config.rounds * config.uncommons +
            players * config.rounds * config.commons := by
        rw [← hsum]
        ring
      obtain ⟨packs, rest, heq, hlen, hall⟩ :=
        buildNoRarityPacks_spec config.cards_per_pack (players * config.rounds)
          (o.shuffle (pool.mythics ++ pool.rares ++ pool.uncommons ++ pool.commons))
          (by omega)
      refine ⟨packs, ?_, hlen, hall⟩
      show (buildNoRarityPacks config.cards_per_pack
        (o.shuffle (pool.mythics ++ pool.rares ++ pool.uncommons ++ pool.commons))
        (players * config.rounds)).map Prod.fst = .ok packs
      rw [heq]
      rfl
    · -- unique with rarities: make_cube_packs_rarities
      simp only [if_true]
      obtain ⟨packs, p', heq, hlen, hall⟩ :=
        buildRarityPacks_spec config o.draws (players * config.rounds)
          { mythics := o.shuffle pool.mythics
            rares := o.shuffle pool.rares
            uncommons := o.shuffle pool.uncommons
            commons := o.shuffle pool.commons } 0
          (by show _ ≤ (o.shuffle pool.rares).length
              rw [(hshuffle _).length_eq]
              exact hr)
          (by show _ ≤ (o.shuffle pool.uncommons).length
              rw [(hshuffle _).length_eq]
              exact hu)
          (by show _ ≤ (o.shuffle pool.commons).length
              rw [(hshuffle _).length_eq]
              exact hc)
      refine ⟨packs, ?_, hlen, ?_⟩
      · show (buildRarityPacks config o.draws
          { mythics := o.shuffle pool.mythics
            rares := o.shuffle pool.rares
            uncommons := o.shuffle pool.uncommons
            commons := o.shuffle pool.commons } 0 (players * config.rounds)).map
            Prod.fst = .ok packs
        rw [heq]
        rfl
      · intro pk hpk
        rw [hall pk hpk, hsum]

/-- C6 (amended): in unique+rarities mode with `mythic_rate = 1.0`, if every
unit draw is strictly below 1 then every pack contains at least
`config.rares` Mythic cards. -/
theorem make_packs_mythic_rate_one (o : Oracle) (players : Nat)
    (config : DraftConfig) (pool : DraftPool)
    (huc : config.unique_cards = true) (hur : config.use_rarities = true)
    (hrate : config.mythic_rate = 1)
    (hdraws : ∀ k, o.draws k < 1)
    (hshuffle : ∀ l : List Card, (o.shuffle l).Perm l)
    (hw : DraftPool.WellFormed pool)
    (hm : players * config.rounds * config.rares ≤ pool.mythics.length)
    (hu : players * config.rounds * config.uncommons ≤ pool.uncommons.length)
    (hc : players * config.rounds * config.commons ≤ pool.commons.length) :
    ∃ packs, make_packs o players config pool = .ok packs ∧
      ∀ pk ∈ packs,
        config.rares ≤ pk.countP (fun c => decide (c.rarity = Rarity.Mythic)) := by
  unfold make_packs
  rw [huc, hur]
  simp only [if_true]
  have hall : ∀ k, o.draws k < config.mythic_rate := by
    intro k
    rw [hrate]
    exact hdraws k
  have hwshuffled : DraftPool.WellFormed
      { mythics := o.shuffle pool.mythics
        rares := o.shuffle pool.rares
        uncommons := o.shuffle pool.uncommons
        commons := o.shuffle pool.commons } := by
    obtain ⟨h1, h2, h3, h4⟩ := hw
    exact ⟨fun c hcm => h1 c ((hshuffle _).subset hcm),
      fun c hcm => h2 c ((hshuffle _).subset hcm),
      fun c hcm => h3 c ((hshuffle _).subset hcm),
      fun c hcm => h4 c ((hshuffle _).subset hcm)⟩
  obtain ⟨packs, p', heq, hcnt⟩ :=
    buildRarityPacks_mythic config o.draws hall (players * config.rounds)
      { mythics := o.shuffle pool.mythics
        rares := o.shuffle pool.rares
        uncommons := o.shuffle pool.uncommons
        commons := o.shuffle pool.commons } 0 hwshuffled
      (by show _ ≤ (o.shuffle pool.mythics).length
          rw [(hshuffle _).length_eq]
          exact hm)
      (by show _ ≤ (o.shuffle pool.uncommons).length
          rw [(hshuffle _).length_eq]
          exact hu)
      (by show _ ≤ (o.shuffle pool.commons).length
          rw [(hshuffle _).length_eq]
          exact hc)
  refine ⟨packs, ?_, hcnt⟩
  show (buildRarityPacks config o.draws
    { mythics := o.shuffle pool.mythics
      rares := o.shuffle pool.rares
      uncommons := o.shuffle pool.uncommons
      commons := o.shuffle pool.commons } 0 (players * config.rounds)).map
      Prod.fst = .ok packs
  rw [heq]
  rfl

/-- A concrete mythic card used in counterexamples and witnesses. -/
def sampleMythic : Card := ⟨"Sample Mythic", "", "TST", Rarity.Mythic, ""⟩

/-- A concrete rare card used in counterexamples and witnesses. -/
def sampleRare : Card := ⟨"Sample Rare", "", "TST", Rarity.Rare, ""⟩

/-- A concrete chooser: always pick the first element. -/
def headChooser : DraftPool.Chooser where
  choose := List.head?
  choose_none := by
    intro l
    cases l <;> simp
  choose_mem := by
    intro l c h
    cases l with
    | nil => simp at h
    | cons a as =>
      simp at h
      simp [h]

/-- An oracle whose unit draws all equal 1, which is a legal output of the
inclusive range `0.0..=1.0` sampled by the rare-slot upgrade roll. -/
def cexOracle : Oracle := ⟨id, fun _ => 1, headChooser⟩

/-- An oracle whose unit draws all equal 0. -/
def zeroOracle : Oracle := ⟨id, fun _ => 0, headChooser⟩

/-- A one-round, one-card-per-pack, one-rare-slot configuration in
unique+rarities mode with `mythic_rate = 1`. -/
def cexConfig : DraftConfig := ⟨1, 1, true, true, false, 1, 1, 0, 0⟩

/-- A pool with one mythic and one rare. -/
def cexPool : DraftPool := ⟨[sampleMythic], [sampleRare], [], []⟩

theorem cex_take :
    (⟨[sampleMythic], [sampleRare], [], []⟩ : DraftPool).take Rarity.Rare false =
      .ok (sampleRare, ⟨[sampleMythic], [], [], []⟩) := by
  have h := DraftPool.take_rare (⟨[sampleMythic], [sampleRare], [], []⟩ : DraftPool)
    false (by simp)
  simpa using h

theorem cex_make_packs : make_packs cexOracle 1 cexConfig cexPool = .ok [[sampleRare]] := by
  simp only [make_packs, cexConfig, make_cube_packs_rarities, cexOracle, id]
  norm_num
  simp [buildRarityPacks, buildRarityPack, takeRareSlots, takeCount, cex_take, cexPool,
    Except.map]

/-- C6 counterexample: with `mythic_rate = 1`, a pool holding at least the
required number of cards of every rarity (one mythic for the one rare slot),
and the draw value 1 — a legal output of the inclusive unit range sampled by
the code — `make_packs` in unique+rarities mode returns a pack containing no
Mythic at all, refuting the claim as stated for every draw sequence. -/
theorem make_packs_mythic_cex :
    cexConfig.unique_cards = true ∧ cexConfig.use_rarities = true ∧
    cexConfig.mythic_rate = 1 ∧
    (∀ k, 0 ≤ cexOracle.draws k ∧ cexOracle.draws k ≤ 1) ∧
    DraftPool.WellFormed cexPool ∧
    1 * cexConfig.rounds * cexConfig.rares ≤ cexPool.mythics.length ∧
    1 * cexConfig.rounds * cexConfig.uncommons ≤ cexPool.uncommons.length ∧
    1 * cexConfig.rounds * cexConfig.commons ≤ cexPool.commons.length ∧
    make_packs cexOracle 1 cexConfig cexPool = .ok [[sampleRare]] ∧
    ¬ (∀ pk ∈ [[sampleRare]], cexConfig.rares ≤
        pk.countP (fun c => decide (c.rarity = Rarity.Mythic))) := by
  refine ⟨rfl, rfl, rfl, fun k => ⟨by norm_num [cexOracle], by norm_num [cexOracle]⟩,
    by decide, by decide, by decide, by decide, cex_make_packs, by decide⟩

/-- C6 witness for the amended theorem, at one player, the counterexample
configuration and pool, and all draws equal to 0. -/
theorem make_packs_mythic_rate_one_witness :
    ∃ packs, make_packs zeroOracle 1 cexConfig cexPool = .ok packs ∧
      ∀ pk ∈ packs, cexConfig.rares ≤
        pk.countP (fun c => decide (c.rarity = Rarity.Mythic)) :=
  make_packs_mythic_rate_one zeroOracle 1 cexConfig cexPool rfl rfl rfl
    (fun k => by norm_num [zeroOracle]) (fun l => List.Perm.refl l)
    (by decide) (by decide) (by decide) (by decide)

/-- C1 witness at one player, the counterexample configuration and pool. -/
theorem make_packs_count_witness :
    ∃ packs, make_packs cexOracle 1 cexConfig cexPool = .ok packs ∧
      packs.length = 1 * cexConfig.rounds ∧
      ∀ pk ∈ packs, pk.length = cexConfig.cards_per_pack :=
  make_packs_count cexOracle 1 cexConfig cexPool (le_refl 1) (by decide)
    (fun l => List.Perm.refl l) (by decide) (by decide) (by decide)

/-- The fallback priority order of each rarity (the spec's table in §4.1.1):
the `PRIORITIES` rows of `replacement_rarity` without their leading exact
rarity. -/
def fallbackOrder : Rarity → List Rarity
  | .Mythic => [.Rare, .Uncommon, .Common]
  | .Rare => [.Mythic, .Uncommon, .Common]
  | .Uncommon => [.Common, .Rare, .Mythic]
  | .Common => [.Uncommon, .Rare, .Mythic]
  | .Special => []
  | .Bonus => []

theorem priorityList_eq_cons (r : Rarity) (h1 : r ≠ Rarity.Special)
    (h2 : r ≠ Rarity.Bonus) : DraftPool.priorityList r = r :: fallbackOrder r := by
  cases r <;> first | rfl | exact absurd rfl h1 | exact absurd rfl h2

theorem empty_iff (p : DraftPool) :
    p.empty = true ↔ p.mythics = [] ∧ p.rares = [] ∧ p.uncommons = [] ∧ p.commons = [] := by
  simp [DraftPool.empty, List.isEmpty_iff, and_assoc]

theorem replacement_of_empty (p : DraftPool) (r : Rarity) (h : p.empty = true) :
    p.replacement_rarity r = none := by
  obtain ⟨h1, h2, h3, h4⟩ := (empty_iff p).mp h
  rw [DraftPool.replacement_rarity, List.find?_eq_none]
  intro x hx
  cases x <;> simp [DraftPool.cards_of, h1, h2, h3, h4]

theorem replacement_eq_fallback_find (p : DraftPool) (r : Rarity)
    (h1 : r ≠ Rarity.Special) (h2 : r ≠ Rarity.Bonus) (hnil : p.cards_of r = []) :
    p.replacement_rarity r =
      (fallbackOrder r).find? (fun x => !(p.cards_of x).isEmpty) := by
  rw [DraftPool.replacement_rarity, priorityList_eq_cons r h1 h2,
    List.find?_cons_of_neg]
  simp [hnil]

/-- The rarity outcome of a destructive draw: the drawn card's rarity, or
`none` on failure. -/
def takeOutcome : Except String (Card × DraftPool) → Option Rarity
  | .ok cp => some cp.1.rarity
  | .error _ => none

/-- The rarity outcome of a non-destructive draw. -/
def rollOutcome : Except String Card → Option Rarity
  | .ok c => some c.rarity
  | .error _ => none

/-- The fallback policy of the claim, as a predicate on the rarity outcome
of a draw of rarity `r` with fallback flag `af` against pool `p`: an empty
pool fails; a stocked exact bucket yields that rarity; an empty exact bucket
with fallback permitted (or a mythic request with rares in stock) yields
exactly the first non-empty rarity of the priority order, with no further
cascading; otherwise the draw fails. -/
def PolicyOutcome (p : DraftPool) (r : Rarity) (af : Bool) (res : Option Rarity) : Prop :=
  (p.empty = true → res = none) ∧
  (p.cards_of r ≠ [] → res = some r) ∧
  (p.empty = false → p.cards_of r = [] →
    (af = true ∨ (r = Rarity.Mythic ∧ p.rares ≠ [])) →
    res = (fallbackOrder r).find? (fun x => !(p.cards_of x).isEmpty)) ∧
  (p.cards_of r = [] → af = false → ¬(r = Rarity.Mythic ∧ p.rares ≠ []) →
    res = none)

/-- C3: `DraftPool::take` and `DraftPool::roll` implement the fallback
policy of the specification. -/
theorem take_roll_policy (p : DraftPool) (r : Rarity) (af : Bool)
    (ch : DraftPool.Chooser) (hwf : DraftPool.WellFormed p)
    (hr : r = Rarity.Mythic ∨ r = Rarity.Rare ∨ r = Rarity.Uncommon ∨ r = Rarity.Common) :
    PolicyOutcome p r af (takeOutcome (p.take r af)) ∧
    PolicyOutcome p r af (rollOutcome (p.roll ch r af)) := by
  have hrs : r ≠ Rarity.Special := by rcases hr with h | h | h | h <;> simp [h]
  have hrb : r ≠ Rarity.Bonus := by rcases hr with h | h | h | h <;> simp [h]
  constructor
  · refine ⟨?_, ?_, ?_, ?_⟩
    · intro he
      rw [DraftPool.take_of_empty p r af he]
      rfl
    · intro hne
      rw [DraftPool.take_of_bucket_ne_nil p r af hne]
      exact congrArg some (hwf.cards_of r _ (List.getLast_mem hne))
    · intro he hnil hcond
      obtain ⟨fb, hfb⟩ := DraftPool.replacement_rarity_isSome p r he ⟨hrs, hrb⟩
      have hfbne := DraftPool.replacement_rarity_nonempty hfb
      rw [DraftPool.take_fallback_eq p r af fb hnil he hcond hfb,
        DraftPool.take_of_bucket_ne_nil p fb false hfbne]
      rw [← replacement_eq_fallback_find p r hrs hrb hnil, hfb]
      exact congrArg some (hwf.cards_of fb _ (List.getLast_mem hfbne))
    · intro hnil haf hnc
      cases he : p.empty
      · rw [DraftPool.take_no_fallback p r af hnil he
          (by rw [haf]; simp [hnc])]
        rfl
      · rw [DraftPool.take_of_empty p r af he]
        rfl
  · refine ⟨?_, ?_, ?_, ?_⟩
    · intro he
      obtain ⟨h1, h2, h3, h4⟩ := (empty_iff p).mp he
      have hnil : p.cards_of r = [] := by
        cases r <;> simp [DraftPool.cards_of, h1, h2, h3, h4]
      cases af
      · rw [DraftPool.roll_no_fallback ch p r false hnil (by simp [h2])]
        rfl
      · rw [DraftPool.roll_fallback_none ch p r true hnil (Or.inl rfl)
          (replacement_of_empty p r he)]
        rfl
    · intro hne
      obtain ⟨c, _, hc, hcm⟩ := DraftPool.roll_of_bucket_ne_nil ch p r af hne
      rw [hc]
      exact congrArg some (hwf.cards_of r c hcm)
    · intro he hnil hcond
      obtain ⟨fb, hfb⟩ := DraftPool.replacement_rarity_isSome p r he ⟨hrs, hrb⟩
      have hfbne := DraftPool.replacement_rarity_nonempty hfb
      obtain ⟨c, _, hc, hcm⟩ := DraftPool.roll_of_bucket_ne_nil ch p fb false hfbne
      rw [DraftPool.roll_fallback_eq ch p r af fb hnil hcond hfb, hc,
        ← replacement_eq_fallback_find p r hrs hrb hnil, hfb]
      exact congrArg some (hwf.cards_of fb c hcm)
    · intro hnil haf hnc
      rw [DraftPool.roll_no_fallback ch p r af hnil (by rw [haf]; simp [hnc])]
      rfl

/-- C3 witness at the concrete sample pool, a Mythic request without
fallback, and the first-element chooser. -/
theorem take_roll_policy_witness :
    PolicyOutcome cexPool Rarity.Mythic false
      (takeOutcome (cexPool.take Rarity.Mythic false)) ∧
    PolicyOutcome cexPool Rarity.Mythic false
      (rollOutcome (cexPool.roll headChooser Rarity.Mythic false)) :=
  take_roll_policy cexPool Rarity.Mythic false headChooser (by decide) (Or.inl rfl)

/-- A seat identifier (`uuid::Uuid`), modelled as a natural number: the code
only ever compares seats for equality. -/
abbrev Uuid := Nat

/-- The pass direction of a round (src/server/src/draft/game.rs). -/
inductive PassDirection where
  | Left
  | Right
  deriving DecidableEq, Repr

/-- `PassDirection::reverse`. -/
def PassDirection.reverse : PassDirection → PassDirection
  | .Left => .Right
  | .Right => .Left

/-- `pub type NewPacks = Vec<(Uuid, Pack)>`. -/
abbrev NewPacks := List (Uuid × Pack)

/-- Update an association list at a key: replace the first binding or append
a new one.  This models in-place mutation of a `HashMap` entry
(`entry(k).or_default()` followed by mutation); iteration order of the real
`HashMap` is arbitrary, and every theorem stated over an iteration reads it
order-insensitively. -/
def alSet : List (Uuid × α) → Uuid → α → List (Uuid × α)
  | [], k, v => [(k, v)]
  | (k', v') :: rest, k, v =>
    if k = k' then (k, v) :: rest else (k', v') :: alSet rest k v

/-- The draft state machine (src/server/src/draft/game.rs, `struct Draft`). -/
structure Draft where
  players : List Uuid
  pools : List (Uuid × List Card)
  direction : PassDirection
  rounds : Nat
  current_round : Nat
  generated_packs : List Pack
  packs_being_drafted : List (Uuid × List Pack)
  deriving DecidableEq, Repr

namespace Draft

/-- `Draft::new`: direction starts Right (reversed to Left at the first
round), no pools, no stacks, round counter at zero. -/
def new (players : List Uuid) (rounds : Nat) (packs : List Pack) : Draft :=
  { players := players
    pools := []
    direction := .Right
    rounds := rounds
    current_round := 0
    generated_packs := packs
    packs_being_drafted := [] }

/-- `Draft::next_player`: the seat the given player passes to, wrapping at
the ends of the seating and honouring the current direction. -/
def next_player (d : Draft) (player : Uuid) : Option Uuid :=
  match d.players.findIdx? (fun p => p == player) with
  | none => none
  | some index =>
    match d.direction with
    | .Left =>
      if index = 0 then d.players.getLast?
      else d.players[index - 1]?
    | .Right =>
      if index = d.players.length - 1 then d.players.head?
      else d.players[index + 1]?

/-- `Draft::pick_card`: remove the card at `index` from the player's front
pack and pop that pack off the player's stack; any failure leaves the state
untouched (the caller keeps the unmodified draft). -/
def pick_card (d : Draft) (player : Uuid) (index : Nat) :
    Except String ((Card × Pack) × Draft) :=
  match List.lookup player d.packs_being_drafted with
  | none => .error "Player not in draft."
  | some stack =>
    match stack with
    | [] => .error "No current pack."
    | current_pack :: rest =>
      if h : index < current_pack.length then
        .ok ((current_pack[index], current_pack.eraseIdx index),
          { d with packs_being_drafted := alSet d.packs_being_drafted player rest })
      else .error "Invalid pick index."

/-- `Draft::round_finished`: every stack is empty. -/
def round_finished (d : Draft) : Bool :=
  d.packs_being_drafted.all (fun kv => kv.2.isEmpty)

/-- `Draft::draft_complete`. -/
def draft_complete (d : Draft) : Bool :=
  d.current_round == d.rounds && d.round_finished

/-- The pack-distribution loop of `Draft::start_round`: pop one generated
pack per player off the tail and push it onto that player's stack; a `pop`
on an exhausted pack list is the modelled panic (`none`). -/
def givePacks : Draft → List Uuid → Option Draft
  | d, [] => some d
  | d, player :: rest =>
    match vecPop d.generated_packs with
    | none => none
    | some (pack, remaining) =>
      givePacks
        { d with
          generated_packs := remaining
          packs_being_drafted := alSet d.packs_being_drafted player
            ((List.lookup player d.packs_being_drafted).getD [] ++ [pack]) }
        rest

/-- The result collection of `Draft::start_round`: one `(player, front)`
pair per stack entry; an empty stack is the modelled `unwrap` panic. -/
def collectFronts : List (Uuid × List Pack) → Option (List (Uuid × Pack))
  | [] => some []
  | (k, stack) :: rest =>
    match stack.head? with
    | none => none
    | some front =>
      match collectFronts rest with
      | none => none
      | some res => some ((k, front) :: res)

/-- `Draft::start_round`: advance the round counter, reverse the direction,
deal one pack per player and return each player's new front pack. -/
def start_round (d : Draft) : Option (NewPacks × Draft) :=
  let d1 := { d with
    current_round := d.current_round + 1
    direction := d.direction.reverse }
  match givePacks d1 d1.players with
  | none => none
  | some d2 =>
    match collectFronts d2.packs_being_drafted with
    | none => none
    | some res => some (res, d2)

/-- `Draft::begin`: callable once at round zero; simply starts the first
round. -/
def begin (d : Draft) : Option (NewPacks × Draft) :=
  d.start_round

/-- `Draft::current_pack`. -/
def current_pack (d : Draft) (player : Uuid) : Option (List Card) :=
  (List.lookup player d.packs_being_drafted).bind List.head?

/-- `Draft::drafted_cards`. -/
def drafted_cards (d : Draft) (player : Uuid) : Option (List Card) :=
  List.lookup player d.pools

/-- `Draft::queue_size`. -/
def queue_size (d : Draft) (player : Uuid) : Nat :=
  ((List.lookup player d.packs_being_drafted).map List.length).getD 0

/-- Push a pack onto a seat's stack (`stack_for(seat).push_back(pack)`). -/
def pushStack (d2 : Draft) (np : Uuid) (pack : Pack) : Draft :=
  { d2 with
    packs_being_drafted := alSet d2.packs_being_drafted np
      ((List.lookup np d2.packs_being_drafted).getD [] ++ [pack]) }

/-- Append a card to a seat's pool (`pool_for(seat).push(card)`). -/
def addToPool (d1 : Draft) (player : Uuid) (card : Card) : Draft :=
  { d1 with
    pools := alSet d1.pools player ((List.lookup player d1.pools).getD [] ++ [card]) }

/-- The residual-passing block of `Draft::handle_pick`: when the residual
pack is non-empty and a pass neighbor exists, push the residual onto the
neighbor's stack, and report the neighbor's new front pack when their stack
was empty.  The front `unwrap` on an empty length-one stack is the modelled
panic (`none`, unreachable). -/
def passResidual (d2 : Draft) (next : Option Uuid) (pack : Pack) :
    Option (Draft × NewPacks) :=
  if pack.isEmpty then some (d2, [])
  else
    match next with
    | none => some (d2, [])
    | some np =>
      let d3 := d2.pushStack np pack
      match List.lookup np d3.packs_being_drafted with
      | some nstack =>
        if nstack.length = 1 then
          match nstack.head? with
          | some front => some (d3, [(np, front)])
          | none => none
        else some (d3, [])
      | none => some (d3, [])

/-- The self-notification block of `Draft::handle_pick`: when the picker is
not their own neighbor and still has a front pack, report it. -/
def emitOwn (next : Option Uuid) (player : Uuid) (d3 : Draft) (nap1 : NewPacks) :
    NewPacks :=
  if next ≠ some player then
    match (List.lookup player d3.packs_being_drafted).bind List.head? with
    | some next_pack => nap1 ++ [(player, next_pack)]
    | none => nap1
  else nap1

/-- The tail of `Draft::handle_pick`: when this pick closed the round and
the draft is not complete, start the next round; otherwise return the newly
visible packs. -/
def finishPick (card : Card) (next : Option Uuid) (player : Uuid) (d3 : Draft)
    (nap1 : NewPacks) : Option (Except String (Card × NewPacks) × Draft) :=
  let nap := emitOwn next player d3 nap1
  if nap.isEmpty && d3.round_finished && !d3.draft_complete then
    match d3.start_round with
    | none => none
    | some (res, d4) => some (.ok (card, res), d4)
  else some (.ok (card, nap), d3)

/-- The body of `Draft::handle_pick` after a successful `pick_card`: grow
the picker's pool, pass the residual pack along, emit the packs that became
visible, and start the next round when this pick closed the current one.
The modelled panics of `start_round` and of the front `unwrap` propagate as
`none`. -/
def afterPick (d1 : Draft) (player : Uuid) (card : Card) (pack : Pack) :
    Option (Except String (Card × NewPacks) × Draft) :=
  let d2 := d1.addToPool player card
  let next := d2.next_player player
  match passResidual d2 next pack with
  | none => none
  | some (d3, nap1) => finishPick card next player d3 nap1

/-- `Draft::handle_pick`: attempt the pick, then run the post-pick body;
every error is returned with the draft state unchanged. -/
def handle_pick (d : Draft) (player : Uuid) (index : Nat) :
    Option (Except String (Card × NewPacks) × Draft) :=
  match d.pick_card player index with
  | .error e => some (.error e, d)
  | .ok ((card, pack), d1) => afterPick d1 player card pack

end Draft

theorem findIdx?_beq_at {l : List Uuid} (hnd : l.Nodup) {i : Nat}
    (hi : i < l.length) :
    l.findIdx? (fun p => p == l[i]) = some i := by
  rw [List.findIdx?_eq_some_iff_getElem]
  refine ⟨hi, by simp, ?_⟩
  intro j hj
  have hne : l.get ⟨j, Nat.lt_trans hj hi⟩ ≠ l.get ⟨i, hi⟩ := by
    intro heq
    have := (List.Nodup.getElem_inj_iff hnd).mp heq
    omega
  simp only [List.get_eq_getElem] at hne
  simp [hne]

theorem next_player_left {d : Draft} {i : Nat} {player : Uuid}
    (hd : d.direction = PassDirection.Left)
    (hfi : d.players.findIdx? (fun p => p == player) = some i) :
    d.next_player player =
      if i = 0 then d.players.getLast? else d.players[i - 1]? := by
  rw [Draft.next_player, hfi, hd]

theorem next_player_right {d : Draft} {i : Nat} {player : Uuid}
    (hd : d.direction = PassDirection.Right)
    (hfi : d.players.findIdx? (fun p => p == player) = some i) :
    d.next_player player =
      if i = d.players.length - 1 then d.players.head? else d.players[i + 1]? := by
  rw [Draft.next_player, hfi, hd]

/-- C7 (amended): on a duplicate-free seating, passing under the current
direction and then under the reversed direction returns every seat to
itself. -/
theorem next_player_involution (d : Draft) (s : Uuid)
    (hnd : d.players.Nodup) (hs : s ∈ d.players) :
    ∃ t, d.next_player s = some t ∧
      ({ d with direction := d.direction.reverse }).next_player t = some s := by
  obtain ⟨i, hi, hsi⟩ := List.getElem_of_mem hs
  have hfi : d.players.findIdx? (fun p => p == s) = some i := by
    rw [← hsi]
    exact findIdx?_beq_at hnd hi
  have hsome : d.players[i]? = some s := by
    rw [List.getElem?_eq_getElem hi, hsi]
  have hlast : d.players.length - 1 < d.players.length := by omega
  obtain hdir | hdir : d.direction = PassDirection.Left ∨
      d.direction = PassDirection.Right := by
    cases d.direction <;> simp
  · have hrev : ({ d with direction := d.direction.reverse }).direction =
        PassDirection.Right := by
      show d.direction.reverse = PassDirection.Right
      rw [hdir]
      rfl
    by_cases h0 : i = 0
    · subst h0
      refine ⟨d.players.get ⟨d.players.length - 1, hlast⟩, ?_, ?_⟩
      · rw [next_player_left hdir hfi, if_pos rfl, List.getLast?_eq_getElem?]
        exact List.getElem?_eq_getElem hlast
      · have hfi2 : d.players.findIdx?
            (fun p => p == d.players.get ⟨d.players.length - 1, hlast⟩) =
            some (d.players.length - 1) := findIdx?_beq_at hnd hlast
        rw [next_player_right hrev hfi2, if_pos rfl, List.head?_eq_getElem?]
        exact hsome
    · have him1 : i - 1 < d.players.length := by omega
      refine ⟨d.players.get ⟨i - 1, him1⟩, ?_, ?_⟩
      · rw [next_player_left hdir hfi, if_neg h0]
        exact List.getElem?_eq_getElem him1
      · have hfi2 : d.players.findIdx? (fun p => p == d.players.get ⟨i - 1, him1⟩) =
            some (i - 1) := findIdx?_beq_at hnd him1
        rw [next_player_right hrev hfi2]
        have hne : ¬(i - 1 = d.players.length - 1) := by omega
        rw [if_neg hne]
        rw [show i - 1 + 1 = i from by omega]
        exact hsome
  · have hrev : ({ d with direction := d.direction.reverse }).direction =
        PassDirection.Left := by
      show d.direction.reverse = PassDirection.Left
      rw [hdir]
      rfl
    by_cases h0 : i = d.players.length - 1
    · subst h0
      have h0lt : 0 < d.players.length := by omega
      refine ⟨d.players.get ⟨0, h0lt⟩, ?_, ?_⟩
      · rw [next_player_right hdir hfi, if_pos rfl, List.head?_eq_getElem?]
        exact List.getElem?_eq_getElem h0lt
      · have hfi2 : d.players.findIdx? (fun p => p == d.players.get ⟨0, h0lt⟩) =
            some 0 := findIdx?_beq_at hnd h0lt
        rw [next_player_left hrev hfi2, if_pos rfl, List.getLast?_eq_getElem?]
        exact hsome
    · have hip1 : i + 1 < d.players.length := by omega
      refine ⟨d.players.get ⟨i + 1, hip1⟩, ?_, ?_⟩
      · rw [next_player_right hdir hfi, if_neg h0]
        exact List.getElem?_eq_getElem hip1
      · have hfi2 : d.players.findIdx? (fun p => p == d.players.get ⟨i + 1, hip1⟩) =
            some (i + 1) := findIdx?_beq_at hnd hip1
        rw [next_player_left hrev hfi2]
        have hne : ¬(i + 1 = 0) := by omega
        rw [if_neg hne]
        rw [show i + 1 - 1 = i from by omega]
        exact hsome

/-- A draft whose seating contains a duplicated seat. -/
def dupDraft : Draft := Draft.new [0, 1, 0] 0 []

/-- C7 counterexample: on the seating `[0, 1, 0]` (non-empty, and the claim
quantifies over every players list), passing right from seat 1 reaches the
duplicated seat 0, and passing left from seat 0 resolves the first
occurrence and returns seat 0 again, not seat 1. -/
theorem next_player_involution_cex :
    dupDraft.players ≠ [] ∧ (1 : Uuid) ∈ dupDraft.players ∧
    dupDraft.next_player 1 = some 0 ∧
    ({ dupDraft with direction := dupDraft.direction.reverse }).next_player 0 = some 0 ∧
    ¬ ∃ t, dupDraft.next_player 1 = some t ∧
      ({ dupDraft with direction := dupDraft.direction.reverse }).next_player t =
        some 1 := by
  refine ⟨by decide, by decide, by decide, by decide, ?_⟩
  rintro ⟨t, h1, h2⟩
  have ht : t = 0 := by
    have := h1.symm.trans (by decide : dupDraft.next_player 1 = some 0)
    simpa using this
  subst ht
  have := h2.symm.trans
    (by decide : ({ dupDraft with direction := dupDraft.direction.reverse }).next_player 0 = some 0)
  simp at this

/-- C7 witness for the amended theorem, at the two-seat seating `[0, 1]`. -/
theorem next_player_involution_witness :
    ∃ t, (Draft.new [0, 1] 0 []).next_player 0 = some t ∧
      ({ Draft.new [0, 1] 0 [] with
          direction := (Draft.new [0, 1] 0 []).direction.reverse }).next_player t =
        some 0 :=
  next_player_involution (Draft.new [0, 1] 0 []) 0 (by decide) (by decide)

/-- Every successful outcome of the post-pick body carries the picked card:
the body never constructs an error. -/
theorem Draft.afterPick_shape (d1 : Draft) (player : Uuid) (card : Card)
    (pack : Pack) :
    ∀ r d', Draft.afterPick d1 player card pack = some (r, d') →
      ∃ nps, r = .ok (card, nps) := by
  intro r d' h
  unfold Draft.afterPick Draft.passResidual Draft.finishPick Draft.emitOwn at h
  repeat' dsimp only [] at h
  repeat' split at h
  all_goals
    first
      | exact ⟨_, (congrArg Prod.fst (Option.some_injective _ h)).symm⟩
      | exact absurd h (by simp)

/-- C4: `handle_pick` returns either a picked card or an error, never both
(structurally, by the `Result` type); whenever it returns an error, the
entire draft state is unchanged. -/
theorem handle_pick_error_unchanged :
    ∀ (d : Draft) (player : Uuid) (index : Nat) (e : String) (d' : Draft),
    d.handle_pick player index = some (.error e, d') → d' = d := by
  intro d player index e d' h
  unfold Draft.handle_pick at h
  cases hpc : d.pick_card player index with
  | error e2 =>
    rw [hpc] at h
    simp only [Option.some.injEq, Prod.mk.injEq] at h
    exact h.2.symm
  | ok val =>
    obtain ⟨⟨card, pack⟩, d1⟩ := val
    rw [hpc] at h
    simp only [] at h
    obtain ⟨nps, hr⟩ := Draft.afterPick_shape d1 player card pack _ _ h
    cases hr

/-- C4 witness: a pick by an unknown seat fails with an error and leaves the
state unchanged. -/
theorem handle_pick_error_unchanged_witness :
    dupDraft.handle_pick 0 0 = some (.error "Player not in draft.", dupDraft) ∧
    dupDraft = dupDraft :=
  ⟨rfl, handle_pick_error_unchanged dupDraft 0 0 "Player not in draft." dupDraft rfl⟩

theorem lookup_alSet_self (m : List (Uuid × α)) (k : Uuid) (v : α) :
    List.lookup k (alSet m k v) = some v := by
  induction m with
  | nil => simp [alSet, List.lookup]
  | cons kv rest ih =>
    obtain ⟨k', v'⟩ := kv
    by_cases h : k = k'
    · subst h
      simp [alSet, List.lookup]
    · have hb : (k == k') = false := by simpa using h
      simp [alSet, h, List.lookup, hb, ih]

theorem lookup_alSet_ne (m : List (Uuid × α)) (k k' : Uuid) (v : α)
    (h : k' ≠ k) : List.lookup k' (alSet m k v) = List.lookup k' m := by
  have hb : (k' == k) = false := by simpa using h
  induction m with
  | nil => simp [alSet, List.lookup, hb]
  | cons kv rest ih =>
    obtain ⟨k2, v2⟩ := kv
    by_cases h2 : k = k2
    · subst h2
      simp [alSet, List.lookup, hb]
    · by_cases h3 : k' = k2
      · subst h3
        have hb2 : (k' == k') = true := by simp
        simp [alSet, h2, List.lookup]
      · have hb3 : (k' == k2) = false := by simpa using h3
        simp [alSet, h2, h3, List.lookup, hb3, ih]

theorem alSet_keys_of_mem (m : List (Uuid × α)) (k : Uuid) (v : α)
    (h : k ∈ m.map Prod.fst) :
    (alSet m k v).map Prod.fst = m.map Prod.fst := by
  induction m with
  | nil => simp at h
  | cons kv rest ih =>
    obtain ⟨k', v'⟩ := kv
    by_cases h2 : k = k'
    · subst h2
      simp [alSet]
    · simp only [List.map_cons, List.mem_cons] at h
      rcases h with h | h
      · exact absurd h h2
      · simp [alSet, h2, ih h]

theorem alSet_keys_of_not_mem (m : List (Uuid × α)) (k : Uuid) (v : α)
    (h : k ∉ m.map Prod.fst) :
    (alSet m k v).map Prod.fst = m.map Prod.fst ++ [k] := by
  induction m with
  | nil => simp [alSet]
  | cons kv rest ih =>
    obtain ⟨k', v'⟩ := kv
    simp only [List.map_cons, List.mem_cons] at h
    push_neg at h
    simp [alSet, h.1, ih h.2]

theorem lookup_eq_none_iff (m : List (Uuid × α)) (k : Uuid) :
    List.lookup k m = none ↔ k ∉ m.map Prod.fst := by
  induction m with
  | nil => simp [List.lookup]
  | cons kv rest ih =>
    obtain ⟨k', v'⟩ := kv
    by_cases h : k = k'
    · subst h
      simp [List.lookup]
    · have hb : (k == k') = false := by simpa using h
      rw [List.lookup]
      simp only [hb]
      simp [ih, h]

/-- The total of a numeric measure over every value of an association
list. -/
def sumVals (f : α → Nat) (m : List (Uuid × α)) : Nat :=
  (m.map (fun kv => f kv.2)).sum

theorem sumVals_alSet_some (f : α → Nat) (m : List (Uuid × α)) (k : Uuid)
    (v w : α) (h : List.lookup k m = some w) :
    sumVals f (alSet m k v) + f w = sumVals f m + f v := by
  induction m with
  | nil => simp [List.lookup] at h
  | cons kv rest ih =>
    obtain ⟨k', v'⟩ := kv
    by_cases h2 : k = k'
    · subst h2
      rw [List.lookup] at h
      simp only [beq_self_eq_true] at h
      cases h
      simp only [alSet, if_pos]
      simp only [sumVals, List.map_cons, List.sum_cons]
      omega
    · have hb : (k == k') = false := by simpa using h2
      rw [List.lookup] at h
      simp only [hb] at h
      have := ih h
      simp only [alSet, if_neg h2, sumVals, List.map_cons, List.sum_cons] at this ⊢
      omega

theorem sumVals_alSet_none (f : α → Nat) (m : List (Uuid × α)) (k : Uuid)
    (v : α) (h : List.lookup k m = none) :
    sumVals f (alSet m k v) = sumVals f m + f v := by
  induction m with
  | nil => simp [alSet, sumVals]
  | cons kv rest ih =>
    obtain ⟨k', v'⟩ := kv
    by_cases h2 : k = k'
    · subst h2
      rw [List.lookup] at h
      simp only [beq_self_eq_true] at h
      cases h
    · have hb : (k == k') = false := by simpa using h2
      rw [List.lookup] at h
      simp only [hb] at h
      have := ih h
      simp only [alSet, if_neg h2, sumVals, List.map_cons, List.sum_cons] at this ⊢
      omega

/-- Cards accumulated in the seats' pools. -/
def poolCards (d : Draft) : Nat := sumVals List.length d.pools

/-- Cards sitting in packs queued at the seats. -/
def queueCards (d : Draft) : Nat :=
  sumVals (fun stack => (stack.map List.length).sum) d.packs_being_drafted

/-- Cards remaining in the pre-generated packs. -/
def genCards (d : Draft) : Nat := (d.generated_packs.map List.length).sum

/-- Pool size of one seat, as the claim counts it. -/
def seatPool (d : Draft) (s : Uuid) : Nat :=
  ((List.lookup s d.pools).getD []).length

/-- Queued cards of one seat, as the claim counts them. -/
def seatQueueCards (d : Draft) (s : Uuid) : Nat :=
  (((List.lookup s d.packs_being_drafted).getD []).map List.length).sum

theorem sum_lookup_eq_sumVals (f : α → Nat) (d0 : α) (hd0 : f d0 = 0) :
    ∀ (m : List (Uuid × α)) (players : List Uuid), players.Nodup →
    (m.map Prod.fst).Nodup → (∀ k ∈ m.map Prod.fst, k ∈ players) →
    (players.map (fun s => f ((List.lookup s m).getD d0))).sum = sumVals f m := by
  intro m
  induction m with
  | nil =>
    intro players _ _ _
    simp only [List.lookup, Option.getD_none, sumVals, List.map_nil, List.sum_nil]
    exact List.sum_eq_zero (by simp [hd0])
  | cons kv rest ih =>
    intro players hnd hknd hsub
    obtain ⟨k, v⟩ := kv
    simp only [List.map_cons, List.nodup_cons] at hknd
    obtain ⟨hknotin, hkndr⟩ := hknd
    have hkmem : k ∈ players := hsub k (by simp)
    have hperm : players.Perm (k :: players.erase k) := List.perm_cons_erase hkmem
    rw [List.Perm.sum_eq (hperm.map _)]
    simp only [List.map_cons, List.sum_cons]
    have hlookup_k : (List.lookup k ((k, v) :: rest)).getD d0 = v := by
      rw [List.lookup]
      simp
    rw [hlookup_k]
    have hstep : ∀ s ∈ players.erase k,
        (fun s => f ((List.lookup s ((k, v) :: rest)).getD d0)) s =
          (fun s => f ((List.lookup s rest).getD d0)) s := by
      intro s hs
      have hsne : s ≠ k := ((List.Nodup.mem_erase_iff hnd).mp hs).1
      have hsb : (s == k) = false := by simpa using hsne
      show f ((List.lookup s ((k, v) :: rest)).getD d0) = _
      rw [List.lookup]
      simp only [hsb]
    rw [List.map_congr_left hstep]
    rw [ih (players.erase k) (hnd.erase k) hkndr
      (by
        intro k2 hk2
        have hk2p : k2 ∈ players := hsub k2 (by simp [hk2])
        have hk2ne : k2 ≠ k := by
          intro heq
          exact hknotin (heq ▸ hk2)
        exact (List.Nodup.mem_erase_iff hnd).mpr ⟨hk2ne, hk2p⟩)]
    simp [sumVals]

theorem vecPop_sum {l : List Pack} {pk : Pack} {rest : List Pack}
    (h : vecPop l = some (pk, rest)) :
    (rest.map List.length).sum + pk.length = (l.map List.length).sum := by
  cases l with
  | nil => simp [vecPop] at h
  | cons x xs =>
    rw [vecPop_ne_nil (by simp)] at h
    obtain ⟨h1, h2⟩ := Prod.mk.injEq .. ▸ Option.some.injEq .. ▸ h
    rw [← h1, ← h2]
    conv_rhs => rw [← List.dropLast_append_getLast (l := x :: xs) (by simp)]
    simp

theorem givePacks_spec :
    ∀ (ps : List Uuid) (d : Draft), ps.Nodup →
    ps.length ≤ d.generated_packs.length →
    (∀ p ∈ ps, (List.lookup p d.packs_being_drafted).getD [] = []) →
    ∃ d', Draft.givePacks d ps = some d' ∧
      d'.players = d.players ∧ d'.pools = d.pools ∧
      d'.direction = d.direction ∧ d'.rounds = d.rounds ∧
      d'.current_round = d.current_round ∧
      d'.generated_packs.length + ps.length = d.generated_packs.length ∧
      (∀ pk ∈ d'.generated_packs, pk ∈ d.generated_packs) ∧
      (∀ p ∈ ps, ∃ pk, pk ∈ d.generated_packs ∧
        List.lookup p d'.packs_being_drafted = some [pk]) ∧
      (∀ k, k ∉ ps →
        List.lookup k d'.packs_being_drafted = List.lookup k d.packs_being_drafted) ∧
      (∀ k, k ∈ d'.packs_being_drafted.map Prod.fst ↔
        (k ∈ d.packs_being_drafted.map Prod.fst ∨ k ∈ ps)) ∧
      ((d.packs_being_drafted.map Prod.fst).Nodup →
        (d'.packs_being_drafted.map Prod.fst).Nodup) ∧
      queueCards d' + genCards d' = queueCards d + genCards d := by
  intro ps
  induction ps with
  | nil =>
    intro d _ _ _
    exact ⟨d, rfl, rfl, rfl, rfl, rfl, rfl, rfl, by simp, by simp, fun k _ => rfl,
      by simp, fun h => h, rfl⟩
  | cons p rest ih =>
    intro d hnd hlen hempty
    have hgne : d.generated_packs ≠ [] := by
      intro hcn
      rw [hcn] at hlen
      simp at hlen
    obtain ⟨hpnotin, hndr⟩ := List.nodup_cons.mp hnd
    have hvp := vecPop_ne_nil hgne
    set pk := d.generated_packs.getLast hgne with hpk
    set dd : Draft := { d with
      generated_packs := d.generated_packs.dropLast
      packs_being_drafted := alSet d.packs_being_drafted p
        ((List.lookup p d.packs_being_drafted).getD [] ++ [pk]) } with hdd
    have hlkp : List.lookup p dd.packs_being_drafted = some [pk] := by
      show List.lookup p (alSet d.packs_being_drafted p _) = _
      rw [lookup_alSet_self, hempty p (by simp)]
      rfl
    obtain ⟨d', heq, hpl, hpo, hdi, hro, hcr, hgl, hgm, hps, hkeep, hkeys, hknd, hcons⟩ :=
      ih dd (hndr)
        (by
          show rest.length ≤ d.generated_packs.dropLast.length
          simp only [List.length_dropLast]
          have : d.generated_packs.length ≠ 0 := by
            simpa [List.length_eq_zero] using hgne
          simp only [List.length_cons] at hlen
          omega)
        (by
          intro q hq
          have hqne : q ≠ p := by
            intro heq2
            exact hpnotin (heq2 ▸ hq)
          show (List.lookup q (alSet d.packs_being_drafted p _)).getD [] = []
          rw [lookup_alSet_ne _ _ _ _ hqne]
          exact hempty q (by simp [hq]))
    refine ⟨d', ?_, hpl, hpo, hdi, hro, hcr, ?_, ?_, ?_, ?_, ?_, ?_, ?_⟩
    · show Draft.givePacks d (p :: rest) = some d'
      rw [Draft.givePacks, hvp]
      exact heq
    · show d'.generated_packs.length + (rest.length + 1) = d.generated_packs.length
      have h1 : d'.generated_packs.length + rest.length =
          d.generated_packs.dropLast.length := hgl
      simp only [List.length_dropLast] at h1
      have : d.generated_packs.length ≠ 0 := by
        simpa [List.length_eq_zero] using hgne
      omega
    · intro q hq
      have := hgm q hq
      exact List.dropLast_subset _ this
    · intro q hq
      rcases List.mem_cons.mp hq with hql | hqr
      · subst hql
        refine ⟨pk, List.getLast_mem hgne, ?_⟩
        rw [hkeep q hpnotin]
        exact hlkp
      · obtain ⟨pk2, hpk2mem, hpk2⟩ := hps q hqr
        exact ⟨pk2, List.dropLast_subset _ hpk2mem, hpk2⟩
    · intro q hq
      simp only [List.mem_cons] at hq
      push_neg at hq
      rw [hkeep q hq.2]
      show List.lookup q (alSet d.packs_being_drafted p _) = _
      rw [lookup_alSet_ne _ _ _ _ hq.1]
    · intro q
      rw [hkeys q]
      constructor
      · rintro (hq | hq)
        · by_cases hqp : q = p
          · exact Or.inr (by simp [hqp])
          · left
            by_cases hpin : p ∈ d.packs_being_drafted.map Prod.fst
            · rwa [show dd.packs_being_drafted.map Prod.fst =
                d.packs_being_drafted.map Prod.fst from alSet_keys_of_mem _ _ _ hpin] at hq
            · rw [show dd.packs_being_drafted.map Prod.fst =
                d.packs_being_drafted.map Prod.fst ++ [p] from
                  alSet_keys_of_not_mem _ _ _ hpin] at hq
              simp only [List.mem_append, List.mem_singleton] at hq
              rcases hq with hq | hq
              · exact hq
              · exact absurd hq hqp
        · exact Or.inr (by simp [hq])
      · rintro (hq | hq)
        · left
          by_cases hpin : p ∈ d.packs_being_drafted.map Prod.fst
          · rwa [alSet_keys_of_mem _ _ _ hpin]
          · rw [alSet_keys_of_not_mem _ _ _ hpin]
            simp [hq]
        · rcases List.mem_cons.mp hq with hql | hqr
          · subst hql
            left
            by_cases hpin : q ∈ d.packs_being_drafted.map Prod.fst
            · rwa [alSet_keys_of_mem _ _ _ hpin]
            · rw [alSet_keys_of_not_mem _ _ _ hpin]
              simp
          · exact Or.inr hqr
    · intro hnd2
      apply hknd
      by_cases hpin : p ∈ d.packs_being_drafted.map Prod.fst
      · show ((alSet d.packs_being_drafted p _).map Prod.fst).Nodup
        rwa [alSet_keys_of_mem _ _ _ hpin]
      · show ((alSet d.packs_being_drafted p _).map Prod.fst).Nodup
        rw [alSet_keys_of_not_mem _ _ _ hpin, List.nodup_append]
        refine ⟨hnd2, List.nodup_singleton p, ?_⟩
        intro a ha hb
        simp only [List.mem_singleton] at hb
        exact hpin (hb ▸ ha)
    · have hval : (List.lookup p d.packs_being_drafted).getD [] ++ [pk] = [pk] := by
        rw [hempty p (by simp)]
        rfl
      have hqdd : queueCards dd = queueCards d + pk.length := by
        show sumVals (fun stack => (stack.map List.length).sum)
          (alSet d.packs_being_drafted p
            ((List.lookup p d.packs_being_drafted).getD [] ++ [pk])) =
          queueCards d + pk.length
        rw [hval]
        cases hlk : List.lookup p d.packs_being_drafted with
        | none =>
          rw [sumVals_alSet_none _ _ _ _ hlk]
          show queueCards d + ([pk].map List.length).sum = _
          simp
        | some w =>
          have hw : w = [] := by
            have h2 := hempty p (by simp)
            rw [hlk] at h2
            simpa using h2
          subst hw
          have h3 := sumVals_alSet_some (fun stack => (stack.map List.length).sum)
            d.packs_being_drafted p [pk] [] hlk
          simp only [List.map_nil, List.sum_nil, Nat.add_zero] at h3
          rw [h3]
          show queueCards d + ([pk].map List.length).sum = _
          simp
      have hgdd : genCards dd + pk.length = genCards d := by
        show (d.generated_packs.dropLast.map List.length).sum + pk.length = _
        have := vecPop_sum hvp
        exact this
      have : queueCards dd + genCards dd = queueCards d + genCards d := by omega
      omega

theorem lookup_mem {m : List (Uuid × α)} {k : Uuid} {v : α}
    (h : List.lookup k m = some v) : (k, v) ∈ m := by
  induction m with
  | nil => simp [List.lookup] at h
  | cons kv rest ih =>
    obtain ⟨k', v'⟩ := kv
    by_cases h2 : k = k'
    · subst h2
      rw [List.lookup] at h
      simp only [beq_self_eq_true] at h
      cases h
      simp
    · have hb : (k == k') = false := by simpa using h2
      rw [List.lookup] at h
      simp only [hb] at h
      exact List.mem_cons_of_mem _ (ih h)

theorem lookup_of_mem_nodup {m : List (Uuid × α)}
    (hnd : (m.map Prod.fst).Nodup) {k : Uuid} {v : α} (h : (k, v) ∈ m) :
    List.lookup k m = some v := by
  induction m with
  | nil => simp at h
  | cons kv rest ih =>
    obtain ⟨k', v'⟩ := kv
    simp only [List.map_cons, List.nodup_cons] at hnd
    rcases List.mem_cons.mp h with hh | hh
    · obtain ⟨hk, hv⟩ := Prod.mk.injEq .. ▸ hh
      subst hk
      subst hv
      rw [List.lookup]
      simp
    · have hkne : k ≠ k' := by
        intro heq
        subst heq
        exact hnd.1 (by
          simp only [List.mem_map]
          exact ⟨(k, v), hh, rfl⟩)
      have hb : (k == k') = false := by simpa using hkne
      rw [List.lookup]
      simp only [hb]
      exact ih hnd.2 hh

theorem collectFronts_singletons :
    ∀ (m : List (Uuid × List Pack)), (∀ kv ∈ m, ∃ pk, kv.2 = [pk]) →
    ∃ res, Draft.collectFronts m = some res ∧
      res.map Prod.fst = m.map Prod.fst ∧
      ∀ pr ∈ res, (pr.1, [pr.2]) ∈ m := by
  intro m
  induction m with
  | nil => exact fun _ => ⟨[], rfl, rfl, by simp⟩
  | cons kv rest ih =>
    intro hall
    obtain ⟨k, stack⟩ := kv
    obtain ⟨pk, hpk⟩ := hall (k, stack) (by simp)
    simp only [] at hpk
    subst hpk
    obtain ⟨res, heq, hmap, hmem⟩ := ih (fun kv hkv => hall kv (by simp [hkv]))
    refine ⟨(k, pk) :: res, ?_, by simp [hmap], ?_⟩
    · rw [Draft.collectFronts]
      simp only [List.head?_cons, heq]
    · intro pr hpr
      rcases List.mem_cons.mp hpr with hh | hh
      · subst hh
        simp
      · exact List.mem_cons_of_mem _ (hmem pr hh)

theorem round_finished_lookup {d : Draft} (h : d.round_finished = true)
    {k : Uuid} : (List.lookup k d.packs_being_drafted).getD [] = [] := by
  cases hlk : List.lookup k d.packs_being_drafted with
  | none => rfl
  | some stack =>
    have hmem := lookup_mem hlk
    have := List.all_eq_true.mp h _ hmem
    simpa [List.isEmpty_iff] using this

theorem start_round_spec (d : Draft)
    (hnd : d.players.Nodup)
    (hknd : (d.packs_being_drafted.map Prod.fst).Nodup)
    (hsub : ∀ k ∈ d.packs_being_drafted.map Prod.fst, k ∈ d.players)
    (hempty : d.round_finished = true)
    (hlen : d.players.length ≤ d.generated_packs.length) :
    ∃ res d', d.start_round = some (res, d') ∧
      d'.players = d.players ∧ d'.pools = d.pools ∧ d'.rounds = d.rounds ∧
      d'.current_round = d.current_round + 1 ∧
      d'.direction = d.direction.reverse ∧
      d'.generated_packs.length + d.players.length = d.generated_packs.length ∧
      (∀ pk ∈ d'.generated_packs, pk ∈ d.generated_packs) ∧
      (∀ s ∈ d.players, ∃ pk, pk ∈ d.generated_packs ∧
        List.lookup s d'.packs_being_drafted = some [pk]) ∧
      (∀ k, k ∈ d'.packs_being_drafted.map Prod.fst ↔ k ∈ d.players) ∧
      (d'.packs_being_drafted.map Prod.fst).Nodup ∧
      queueCards d' + genCards d' = queueCards d + genCards d ∧
      res.map Prod.fst = d'.packs_being_drafted.map Prod.fst ∧
      (∀ pr ∈ res, List.lookup pr.1 d'.packs_being_drafted = some [pr.2]) := by
  obtain ⟨d2, heq, hpl, hpo, hdi, hro, hcr, hgl, hgm, hps, hkeep, hkeys, hknd2, hcons⟩ :=
    givePacks_spec d.players
      { d with
        current_round := d.current_round + 1
        direction := d.direction.reverse }
      hnd hlen (fun p _ => round_finished_lookup hempty)
  have hknd2' : (d2.packs_being_drafted.map Prod.fst).Nodup := hknd2 hknd
  have hkeys2 : ∀ k, k ∈ d2.packs_being_drafted.map Prod.fst ↔ k ∈ d.players := by
    intro k
    rw [hkeys k]
    constructor
    · rintro (hk | hk)
      · exact hsub k hk
      · exact hk
    · exact fun hk => Or.inr hk
  have hsingle : ∀ kv ∈ d2.packs_being_drafted, ∃ pk, kv.2 = [pk] := by
    intro kv hkv
    have hk1 : kv.1 ∈ d2.packs_being_drafted.map Prod.fst := by
      simp only [List.mem_map]
      exact ⟨kv, hkv, rfl⟩
    have hk2 : kv.1 ∈ d.players := (hkeys2 kv.1).mp hk1
    obtain ⟨pk, _, hlk⟩ := hps kv.1 hk2
    have := lookup_of_mem_nodup hknd2' (by
      show (kv.1, kv.2) ∈ d2.packs_being_drafted
      exact hkv)
    rw [hlk] at this
    exact ⟨pk, by simpa using this.symm⟩
  obtain ⟨res, hcf, hresmap, hresmem⟩ := collectFronts_singletons _ hsingle
  refine ⟨res, d2, ?_, hpl, hpo, hro, hcr, hdi, hgl, hgm, hps, hkeys2, hknd2', hcons,
    hresmap, ?_⟩
  · simp only [Draft.start_round, heq, hcf]
  · intro pr hpr
    exact lookup_of_mem_nodup hknd2' (hresmem pr hpr)

/-- C5: from a state with every queue empty, the draft not complete, and at
least one generated pack per seat, `start_round` succeeds, gives every seat
a queue of exactly one pack, advances the round counter, reverses the pass
direction, and returns exactly one (seat, pack) pair per seat whose pack is
the front of that seat's queue. -/
theorem start_round_one_pack_each (d : Draft)
    (hnd : d.players.Nodup)
    (hknd : (d.packs_being_drafted.map Prod.fst).Nodup)
    (hsub : ∀ k ∈ d.packs_being_drafted.map Prod.fst, k ∈ d.players)
    (hempty : d.round_finished = true)
    (hcomplete : d.draft_complete = false)
    (hlen : d.players.length ≤ d.generated_packs.length) :
    ∃ res d', d.start_round = some (res, d') ∧
      (∀ s ∈ d.players, d'.queue_size s = 1) ∧
      d'.current_round = d.current_round + 1 ∧
      d'.direction = d.direction.reverse ∧
      (res.map Prod.fst).Perm d.players ∧
      (∀ pr ∈ res, d'.current_pack pr.1 = some pr.2) := by
  obtain ⟨res, d', heq, hpl, hpo, hro, hcr, hdi, hgl, hgm, hps, hkeys, hknd', hcons,
    hresmap, hresget⟩ := start_round_spec d hnd hknd hsub hempty hlen
  refine ⟨res, d', heq, ?_, hcr, hdi, ?_, ?_⟩
  · intro s hs
    obtain ⟨pk, _, hlk⟩ := hps s hs
    rw [Draft.queue_size, hlk]
    rfl
  · rw [hresmap]
    rw [List.perm_ext_iff_of_nodup hknd' hnd]
    exact hkeys
  · intro pr hpr
    rw [Draft.current_pack, hresget pr hpr]
    rfl

/-- C5 witness: a fresh single-seat draft with one generated pack. -/
theorem start_round_one_pack_each_witness :
    ∃ res d', (Draft.new [0] 1 [[sampleRare]]).start_round = some (res, d') ∧
      (∀ s ∈ (Draft.new [0] 1 [[sampleRare]]).players, d'.queue_size s = 1) ∧
      d'.current_round = (Draft.new [0] 1 [[sampleRare]]).current_round + 1 ∧
      d'.direction = (Draft.new [0] 1 [[sampleRare]]).direction.reverse ∧
      (res.map Prod.fst).Perm (Draft.new [0] 1 [[sampleRare]]).players ∧
      (∀ pr ∈ res, d'.current_pack pr.1 = some pr.2) :=
  start_round_one_pack_each (Draft.new [0] 1 [[sampleRare]]) (by decide)
    (by decide) (by decide) (by decide) (by decide) (by decide)

theorem passResidual_nil (d2 : Draft) (next : Option Uuid) (pack : Pack)
    (h : pack.isEmpty = true) : Draft.passResidual d2 next pack = some (d2, []) := by
  unfold Draft.passResidual
  rw [if_pos h]

theorem passResidual_none (d2 : Draft) (pack : Pack) (h : pack.isEmpty = false) :
    Draft.passResidual d2 none pack = some (d2, []) := by
  unfold Draft.passResidual
  rw [if_neg (by simp [h])]

theorem passResidual_some (d2 : Draft) (np : Uuid) (pack : Pack)
    (h : pack.isEmpty = false) :
    ∃ nap1, Draft.passResidual d2 (some np) pack =
      some (d2.pushStack np pack, nap1) := by
  unfold Draft.passResidual
  rw [if_neg (by simp [h])]
  dsimp only []
  rw [show List.lookup np (d2.pushStack np pack).packs_being_drafted =
    some ((List.lookup np d2.packs_being_drafted).getD [] ++ [pack]) from
    lookup_alSet_self _ _ _]
  dsimp only []
  by_cases hl : ((List.lookup np d2.packs_being_drafted).getD [] ++ [pack]).length = 1
  · cases hhd : ((List.lookup np d2.packs_being_drafted).getD [] ++ [pack]).head? with
    | none =>
      exfalso
      rw [List.head?_eq_none_iff] at hhd
      simp at hhd
    | some front =>
      refine ⟨[(np, front)], ?_⟩
      rw [if_pos hl]
  · refine ⟨[], ?_⟩
    rw [if_neg hl]

theorem finishPick_true (card : Card) (next : Option Uuid) (player : Uuid)
    (d3 : Draft) (nap1 : NewPacks) (res : NewPacks) (d4 : Draft)
    (hguard : ((Draft.emitOwn next player d3 nap1).isEmpty && d3.round_finished &&
      !d3.draft_complete) = true)
    (hsr : d3.start_round = some (res, d4)) :
    Draft.finishPick card next player d3 nap1 = some (.ok (card, res), d4) := by
  unfold Draft.finishPick
  dsimp only []
  rw [if_pos hguard, hsr]

theorem finishPick_false (card : Card) (next : Option Uuid) (player : Uuid)
    (d3 : Draft) (nap1 : NewPacks)
    (hguard : ((Draft.emitOwn next player d3 nap1).isEmpty && d3.round_finished &&
      !d3.draft_complete) = false) :
    Draft.finishPick card next player d3 nap1 =
      some (.ok (card, Draft.emitOwn next player d3 nap1), d3) := by
  unfold Draft.finishPick
  dsimp only []
  rw [if_neg (by simp [hguard])]

theorem pick_card_ok_spec (d : Draft) (s : Uuid) (i : Nat) (card : Card)
    (pack : Pack) (d1 : Draft) (h : d.pick_card s i = .ok ((card, pack), d1)) :
    ∃ current rest, List.lookup s d.packs_being_drafted = some (current :: rest) ∧
      i < current.length ∧ pack = current.eraseIdx i ∧
      d1 = { d with packs_being_drafted := alSet d.packs_being_drafted s rest } := by
  unfold Draft.pick_card at h
  split at h
  · cases h
  · split at h
    · cases h
    · split at h
      · simp only [Except.ok.injEq, Prod.mk.injEq] at h
        obtain ⟨⟨hcd, hpk⟩, hd1⟩ := h
        rename_i stack current rest hlk hidx
        exact ⟨current, rest, hlk, hidx, hpk.symm, hd1.symm⟩
      · cases h

theorem handle_pick_of_pick_error (d : Draft) (s : Uuid) (i : Nat) (e : String)
    (h : d.pick_card s i = .error e) :
    d.handle_pick s i = some (.error e, d) := by
  unfold Draft.handle_pick
  rw [h]

theorem handle_pick_of_pick_ok (d : Draft) (s : Uuid) (i : Nat) (card : Card)
    (pack : Pack) (d1 : Draft) (h : d.pick_card s i = .ok ((card, pack), d1)) :
    d.handle_pick s i = Draft.afterPick d1 s card pack := by
  unfold Draft.handle_pick
  rw [h]

theorem next_player_isSome (d : Draft) (s : Uuid) (hs : s ∈ d.players) :
    ∃ t, d.next_player s = some t ∧ t ∈ d.players := by
  have hne : d.players ≠ [] := List.ne_nil_of_mem hs
  have hlen0 : d.players.length ≠ 0 := by
    simpa [List.length_eq_zero] using hne
  obtain ⟨j, hj⟩ : ∃ j, d.players.findIdx? (fun p => p == s) = some j := by
    rw [← Option.isSome_iff_exists, List.findIdx?_isSome, List.any_eq_true]
    exact ⟨s, hs, by simp⟩
  obtain ⟨hjlt, _, _⟩ := List.findIdx?_eq_some_iff_getElem.mp hj
  rw [Draft.next_player, hj]
  dsimp only []
  cases d.direction <;> dsimp only []
  · by_cases h0 : j = 0
    · rw [if_pos h0]
      refine ⟨d.players.get ⟨d.players.length - 1, by omega⟩, ?_, List.getElem_mem _⟩
      rw [List.getLast?_eq_getElem?, List.getElem?_eq_getElem (by omega)]
      rfl
    · rw [if_neg h0]
      refine ⟨d.players.get ⟨j - 1, by omega⟩, ?_, List.getElem_mem _⟩
      rw [List.getElem?_eq_getElem (by omega)]
      rfl
  · by_cases h0 : j = d.players.length - 1
    · rw [if_pos h0]
      refine ⟨d.players.get ⟨0, by omega⟩, ?_, List.getElem_mem _⟩
      rw [List.head?_eq_getElem?, List.getElem?_eq_getElem (by omega)]
      rfl
    · rw [if_neg h0]
      refine ⟨d.players.get ⟨j + 1, by omega⟩, ?_, List.getElem_mem _⟩
      rw [List.getElem?_eq_getElem (by omega)]
      rfl

theorem poolCards_addToPool (d : Draft) (s : Uuid) (card : Card) :
    poolCards (d.addToPool s card) = poolCards d + 1 := by
  unfold poolCards Draft.addToPool
  cases hlk : List.lookup s d.pools with
  | none =>
    show sumVals List.length (alSet d.pools s _) = _
    rw [sumVals_alSet_none _ _ _ _ hlk]
    simp
  | some w =>
    show sumVals List.length (alSet d.pools s ((some w).getD [] ++ [card])) =
      sumVals List.length d.pools + 1
    have h3 := sumVals_alSet_some List.length d.pools s
      ((some w).getD [] ++ [card]) w hlk
    simp only [Option.getD_some] at h3 ⊢
    simp only [List.length_append, List.length_cons, List.length_nil] at h3
    omega

theorem queueCards_pushStack (d : Draft) (np : Uuid) (pack : Pack) :
    queueCards (d.pushStack np pack) = queueCards d + pack.length := by
  unfold queueCards Draft.pushStack
  cases hlk : List.lookup np d.packs_being_drafted with
  | none =>
    show sumVals (fun stack => (stack.map List.length).sum)
      (alSet d.packs_being_drafted np _) = _
    rw [sumVals_alSet_none _ _ _ _ hlk]
    simp
  | some w =>
    show sumVals (fun stack => (stack.map List.length).sum)
      (alSet d.packs_being_drafted np ((some w).getD [] ++ [pack])) =
      sumVals (fun stack => (stack.map List.length).sum) d.packs_being_drafted +
        pack.length
    have h3 := sumVals_alSet_some (fun stack => (stack.map List.length).sum)
      d.packs_being_drafted np ((some w).getD [] ++ [pack]) w hlk
    simp only [Option.getD_some] at h3 ⊢
    simp only [List.map_append, List.sum_append, List.map_cons, List.sum_cons,
      List.map_nil, List.sum_nil] at h3
    omega

theorem queueCards_popFront (d : Draft) (s : Uuid) (current : Pack)
    (rest : List Pack) (hlk : List.lookup s d.packs_being_drafted = some (current :: rest)) :
    queueCards { d with packs_being_drafted := alSet d.packs_being_drafted s rest } +
      current.length = queueCards d := by
  have h3 := sumVals_alSet_some (fun stack => (stack.map List.length).sum)
    d.packs_being_drafted s rest (current :: rest) hlk
  simp only [List.map_cons, List.sum_cons] at h3
  show sumVals (fun stack => (stack.map List.length).sum)
    (alSet d.packs_being_drafted s rest) + current.length =
    sumVals (fun stack => (stack.map List.length).sum) d.packs_being_drafted
  omega

theorem alSet_keys_nodup (m : List (Uuid × α)) (k : Uuid) (v : α)
    (h : (m.map Prod.fst).Nodup) : ((alSet m k v).map Prod.fst).Nodup := by
  by_cases hmem : k ∈ m.map Prod.fst
  · rwa [alSet_keys_of_mem _ _ _ hmem]
  · rw [alSet_keys_of_not_mem _ _ _ hmem, List.nodup_append]
    refine ⟨h, List.nodup_singleton k, ?_⟩
    intro a ha hb
    simp only [List.mem_singleton] at hb
    exact hmem (hb ▸ ha)

theorem alSet_keys_sub (m : List (Uuid × α)) (k : Uuid) (v : α)
    (players : List Uuid) (hsub : ∀ x ∈ m.map Prod.fst, x ∈ players)
    (hk : k ∈ players) : ∀ x ∈ (alSet m k v).map Prod.fst, x ∈ players := by
  intro x hx
  by_cases hmem : k ∈ m.map Prod.fst
  · rw [alSet_keys_of_mem _ _ _ hmem] at hx
    exact hsub x hx
  · rw [alSet_keys_of_not_mem _ _ _ hmem] at hx
    simp only [List.mem_append, List.mem_singleton] at hx
    rcases hx with hx | hx
    · exact hsub x hx
    · exact hx ▸ hk

theorem draft_complete_false_elim {d : Draft} (h : d.draft_complete = false)
    (hf : d.round_finished = true) : d.current_round ≠ d.rounds := by
  unfold Draft.draft_complete at h
  rw [hf] at h
  simp only [Bool.and_true, beq_eq_false_iff_ne, ne_eq] at h
  exact h

theorem sum_map_length_const {l : List Pack} {cpp : Nat}
    (h : ∀ pk ∈ l, pk.length = cpp) : (l.map List.length).sum = l.length * cpp := by
  induction l with
  | nil => simp
  | cons x xs ih =>
    simp only [List.map_cons, List.sum_cons, List.length_cons]
    rw [h x (by simp), ih (fun pk hpk => h pk (by simp [hpk]))]
    ring

/-- The state invariant of a running draft built from `players` seats and
`players.length * rounds` generated packs of `cpp` cards each. -/
structure DraftInv (players : List Uuid) (rounds cpp : Nat) (d : Draft) : Prop where
  players_eq : d.players = players
  players_nodup : players.Nodup
  rounds_eq : d.rounds = rounds
  round_le : players ≠ [] → d.current_round ≤ rounds
  pool_keys_nodup : (d.pools.map Prod.fst).Nodup
  pool_keys_sub : ∀ k ∈ d.pools.map Prod.fst, k ∈ players
  stack_keys_nodup : (d.packs_being_drafted.map Prod.fst).Nodup
  stack_keys_sub : ∀ k ∈ d.packs_being_drafted.map Prod.fst, k ∈ players
  gen_len : d.generated_packs.length = (rounds - d.current_round) * players.length
  gen_cpp : ∀ pk ∈ d.generated_packs, pk.length = cpp
  conserve : poolCards d + queueCards d + genCards d = players.length * rounds * cpp

/-- States of the draft machine reachable from `Draft::new` by one `begin`
and any sequence of `handle_pick` calls (successful or failed). -/
inductive Reachable (players : List Uuid) (rounds cpp : Nat) : Draft → Prop where
  | init (packs : List Pack) (res : NewPacks) (d : Draft)
      (hnd : players.Nodup)
      (hplen : packs.length = players.length * rounds)
      (hcpp : ∀ pk ∈ packs, pk.length = cpp)
      (hbegin : (Draft.new players rounds packs).begin = some (res, d)) :
      Reachable players rounds cpp d
  | step (d : Draft) (s : Uuid) (i : Nat) (r : Except String (Card × NewPacks))
      (d' : Draft) (hd : Reachable players rounds cpp d)
      (hstep : d.handle_pick s i = some (r, d')) :
      Reachable players rounds cpp d'

theorem givePacks_some_le :
    ∀ (ps : List Uuid) (dd : Draft) (d2 : Draft),
    Draft.givePacks dd ps = some d2 → ps.length ≤ dd.generated_packs.length := by
  intro ps
  induction ps with
  | nil =>
    intro dd d2 _
    simp
  | cons p rest ih =>
    intro dd d2 hgp
    rw [Draft.givePacks] at hgp
    cases hvp : vecPop dd.generated_packs with
    | none =>
      rw [hvp] at hgp
      cases hgp
    | some pr =>
      obtain ⟨pk, rem⟩ := pr
      rw [hvp] at hgp
      obtain ⟨_, _, hlen⟩ := vecPop_some hvp
      have := ih _ _ hgp
      simp only [] at this
      simp only [List.length_cons]
      omega

theorem start_round_some_le {d : Draft} {res : NewPacks} {d' : Draft}
    (h : d.start_round = some (res, d')) :
    d.players.length ≤ d.generated_packs.length := by
  unfold Draft.start_round at h
  dsimp only [] at h
  cases hgp : Draft.givePacks
      { d with current_round := d.current_round + 1, direction := d.direction.reverse }
      d.players with
  | none =>
    rw [hgp] at h
    cases h
  | some d2 =>
    exact givePacks_some_le d.players
      { d with current_round := d.current_round + 1, direction := d.direction.reverse }
      d2 hgp

theorem begin_inv (players : List Uuid) (rounds cpp : Nat) (packs : List Pack)
    (res : NewPacks) (d : Draft) (hnd : players.Nodup)
    (hplen : packs.length = players.length * rounds)
    (hcpp : ∀ pk ∈ packs, pk.length = cpp)
    (hbegin : (Draft.new players rounds packs).begin = some (res, d)) :
    DraftInv players rounds cpp d := by
  have hlen : players.length ≤ packs.length := start_round_some_le hbegin
  obtain ⟨res2, d2, heq, hpl, hpo, hro, hcr, hdi, hgl, hgm, hps, hkeys, hknd2, hcons,
    hresmap, hresget⟩ :=
    start_round_spec (Draft.new players rounds packs) hnd (by simp [Draft.new])
      (by simp [Draft.new]) rfl hlen
  rw [Draft.begin, heq] at hbegin
  obtain ⟨hres, hd⟩ := Prod.mk.injEq .. ▸ Option.some.injEq .. ▸ hbegin
  subst hd
  have hroundsge : players ≠ [] → 1 ≤ rounds := by
    intro hne
    have hp0 : players.length ≠ 0 := by
      simpa [List.length_eq_zero] using hne
    rcases Nat.eq_zero_or_pos rounds with h0 | h1
    · subst h0
      rw [Nat.mul_zero] at hplen
      omega
    · exact h1
  have hcr1 : d2.current_round = 1 := hcr
  refine ⟨hpl, hnd, hro, ?_, ?_, ?_, hknd2, ?_, ?_, ?_, ?_⟩
  · intro hne
    rw [hcr1]
    exact hroundsge hne
  · show (d2.pools.map Prod.fst).Nodup
    rw [hpo]
    simp [Draft.new]
  · intro k hk
    rw [hpo] at hk
    simp [Draft.new] at hk
  · intro k hk
    exact (hkeys k).mp hk
  · rw [hcr1]
    have h1 : (rounds - 1) * players.length = rounds * players.length - players.length :=
      Nat.sub_one_mul rounds players.length
    have h2 : rounds * players.length = players.length * rounds :=
      Nat.mul_comm rounds players.length
    have h3 : d2.generated_packs.length + players.length = packs.length := hgl
    omega
  · intro pk hpk
    exact hcpp pk (hgm pk hpk)
  · have hpc : poolCards d2 = 0 := by
      unfold poolCards
      rw [hpo]
      rfl
    have hqg : queueCards d2 + genCards d2 =
        queueCards (Draft.new players rounds packs) +
          genCards (Draft.new players rounds packs) := hcons
    have hq0 : queueCards (Draft.new players rounds packs) = 0 := rfl
    have hgen : genCards (Draft.new players rounds packs) = packs.length * cpp := by
      unfold genCards
      exact sum_map_length_const hcpp
    rw [hpc, hplen] at *
    omega

theorem inv_d3 {players : List Uuid} {rounds cpp : Nat} {d : Draft} (d3 : Draft)
    (hinv : DraftInv players rounds cpp d)
    (hpl : d3.players = d.players)
    (hrou : d3.rounds = d.rounds)
    (hcr : d3.current_round = d.current_round)
    (hpn : (d3.pools.map Prod.fst).Nodup)
    (hpsub : ∀ k ∈ d3.pools.map Prod.fst, k ∈ players)
    (hsn : (d3.packs_being_drafted.map Prod.fst).Nodup)
    (hssub : ∀ k ∈ d3.packs_being_drafted.map Prod.fst, k ∈ players)
    (hgen : d3.generated_packs = d.generated_packs)
    (hcons : poolCards d3 + queueCards d3 + genCards d3 =
      poolCards d + queueCards d + genCards d) :
    DraftInv players rounds cpp d3 := by
  refine ⟨hpl.trans hinv.players_eq, hinv.players_nodup, hrou.trans hinv.rounds_eq,
    ?_, hpn, hpsub, hsn, hssub, ?_, ?_, ?_⟩
  · intro hne
    rw [hcr]
    exact hinv.round_le hne
  · rw [hgen, hcr]
    exact hinv.gen_len
  · intro pk hpk
    exact hinv.gen_cpp pk (hgen ▸ hpk)
  · rw [hcons]
    exact hinv.conserve

theorem inv_next_round {players : List Uuid} {rounds cpp : Nat} {d3 : Draft}
    (hinv3 : DraftInv players rounds cpp d3)
    (hne : players ≠ [])
    (hrf : d3.round_finished = true)
    (hdc : d3.draft_complete = false) :
    ∃ res d4, d3.start_round = some (res, d4) ∧ DraftInv players rounds cpp d4 := by
  have hP0 : players.length ≠ 0 := by
    simpa [List.length_eq_zero] using hne
  have hcrlt : d3.current_round < rounds := by
    have h1 := hinv3.round_le hne
    have h2 := draft_complete_false_elim hdc hrf
    rw [hinv3.rounds_eq] at h2
    omega
  have hlen : d3.players.length ≤ d3.generated_packs.length := by
    rw [hinv3.players_eq, hinv3.gen_len]
    calc players.length = 1 * players.length := (Nat.one_mul _).symm
      _ ≤ (rounds - d3.current_round) * players.length :=
        Nat.mul_le_mul_right _ (by omega)
  obtain ⟨res, d4, heq, hpl, hpo, hro, hcr, hdi, hgl, hgm, hps, hkeys, hknd2, hcons,
    hresmap, hresget⟩ :=
    start_round_spec d3
      (by rw [hinv3.players_eq]; exact hinv3.players_nodup)
      hinv3.stack_keys_nodup
      (by
        intro k hk
        rw [hinv3.players_eq]
        exact hinv3.stack_keys_sub k hk)
      hrf hlen
  refine ⟨res, d4, heq,
    hpl.trans hinv3.players_eq, hinv3.players_nodup, hro.trans hinv3.rounds_eq,
    ?_, ?_, ?_, hknd2, ?_, ?_, ?_, ?_⟩
  · intro _
    rw [hcr]
    omega
  · rw [hpo]
    exact hinv3.pool_keys_nodup
  · intro k hk
    rw [hpo] at hk
    exact hinv3.pool_keys_sub k hk
  · intro k hk
    rw [← hinv3.players_eq]
    exact (hkeys k).mp hk
  · rw [hcr]
    have h1 := hgl
    rw [hinv3.players_eq] at h1
    have h2 := hinv3.gen_len
    have h3 : rounds - (d3.current_round + 1) = (rounds - d3.current_round) - 1 := by
      omega
    rw [h3, Nat.sub_one_mul]
    omega
  · intro pk hpk
    exact hinv3.gen_cpp pk (hgm pk hpk)
  · have hp4 : poolCards d4 = poolCards d3 := by
      unfold poolCards
      rw [hpo]
    have h5 := hcons
    have h6 := hinv3.conserve
    omega

theorem finishPick_inv {players : List Uuid} {rounds cpp : Nat} (card : Card)
    (next : Option Uuid) (player : Uuid) {d3 : Draft} (nap1 : NewPacks)
    {r : Except String (Card × NewPacks)} {d' : Draft}
    (hinv3 : DraftInv players rounds cpp d3) (hne : players ≠ [])
    (h : Draft.finishPick card next player d3 nap1 = some (r, d')) :
    DraftInv players rounds cpp d' := by
  unfold Draft.finishPick at h
  dsimp only [] at h
  split at h
  · rename_i hguard
    have hg2 := hguard
    simp only [Bool.and_eq_true, Bool.not_eq_true'] at hg2
    obtain ⟨⟨-, hrf⟩, hdc⟩ := hg2
    obtain ⟨res, d4, hsr, hinv4⟩ := inv_next_round hinv3 hne hrf hdc
    rw [hsr] at h
    dsimp only [] at h
    obtain ⟨-, hd'⟩ := Prod.mk.injEq .. ▸ Option.some.injEq .. ▸ h
    exact hd' ▸ hinv4
  · obtain ⟨-, hd'⟩ := Prod.mk.injEq .. ▸ Option.some.injEq .. ▸ h
    exact hd' ▸ hinv3

theorem inv_dE {players : List Uuid} {rounds cpp : Nat} {d : Draft} {s : Uuid}
    (card : Card) {current : Pack} {rest : List Pack}
    (hinv : DraftInv players rounds cpp d) (hs : s ∈ players)
    (hlk : List.lookup s d.packs_being_drafted = some (current :: rest))
    (hone : current.length = 1) :
    DraftInv players rounds cpp
      (({ d with packs_being_drafted := alSet d.packs_being_drafted s rest } :
        Draft).addToPool s card) := by
  refine inv_d3 _ hinv rfl rfl rfl ?_ ?_ ?_ ?_ rfl ?_
  · exact alSet_keys_nodup _ _ _ hinv.pool_keys_nodup
  · exact alSet_keys_sub _ _ _ players hinv.pool_keys_sub hs
  · exact alSet_keys_nodup _ _ _ hinv.stack_keys_nodup
  · exact alSet_keys_sub _ _ _ players hinv.stack_keys_sub hs
  · have e1 : poolCards
        (({ d with packs_being_drafted := alSet d.packs_being_drafted s rest } :
          Draft).addToPool s card) =
        poolCards { d with packs_being_drafted := alSet d.packs_being_drafted s rest } + 1 :=
      poolCards_addToPool _ s card
    have e2 : poolCards
        { d with packs_being_drafted := alSet d.packs_being_drafted s rest } =
        poolCards d := rfl
    have e3 : queueCards
        (({ d with packs_being_drafted := alSet d.packs_being_drafted s rest } :
          Draft).addToPool s card) =
        queueCards { d with packs_being_drafted := alSet d.packs_being_drafted s rest } := rfl
    have e4 : queueCards
        { d with packs_being_drafted := alSet d.packs_being_drafted s rest } +
        current.length = queueCards d := queueCards_popFront d s current rest hlk
    have e5 : genCards
        (({ d with packs_being_drafted := alSet d.packs_being_drafted s rest } :
          Draft).addToPool s card) = genCards d := rfl
    rw [hone] at e4
    omega

theorem inv_dN {players : List Uuid} {rounds cpp : Nat} {d : Draft} {s t : Uuid}
    (card : Card) {current pack : Pack} {rest : List Pack}
    (hinv : DraftInv players rounds cpp d) (hs : s ∈ players) (ht : t ∈ players)
    (hlk : List.lookup s d.packs_being_drafted = some (current :: rest))
    (hplen : pack.length + 1 = current.length) :
    DraftInv players rounds cpp
      ((({ d with packs_being_drafted := alSet d.packs_being_drafted s rest } :
        Draft).addToPool s card).pushStack t pack) := by
  refine inv_d3 _ hinv rfl rfl rfl ?_ ?_ ?_ ?_ rfl ?_
  · exact alSet_keys_nodup _ _ _ hinv.pool_keys_nodup
  · exact alSet_keys_sub _ _ _ players hinv.pool_keys_sub hs
  · exact alSet_keys_nodup _ _ _ (alSet_keys_nodup _ _ _ hinv.stack_keys_nodup)
  · exact alSet_keys_sub _ _ _ players
      (alSet_keys_sub _ _ _ players hinv.stack_keys_sub hs) ht
  · have e1 : poolCards
        (({ d with packs_being_drafted := alSet d.packs_being_drafted s rest } :
          Draft).addToPool s card) =
        poolCards { d with packs_being_drafted := alSet d.packs_being_drafted s rest } + 1 :=
      poolCards_addToPool _ s card
    have e2 : poolCards
        { d with packs_being_drafted := alSet d.packs_being_drafted s rest } =
        poolCards d := rfl
    have e3 : queueCards
        (({ d with packs_being_drafted := alSet d.packs_being_drafted s rest } :
          Draft).addToPool s card) =
        queueCards { d with packs_being_drafted := alSet d.packs_being_drafted s rest } := rfl
    have e4 : queueCards
        { d with packs_being_drafted := alSet d.packs_being_drafted s rest } +
        current.length = queueCards d := queueCards_popFront d s current rest hlk
    have e6 : queueCards
        ((({ d with packs_being_drafted := alSet d.packs_being_drafted s rest } :
          Draft).addToPool s card).pushStack t pack) =
        queueCards
          (({ d with packs_being_drafted := alSet d.packs_being_drafted s rest } :
            Draft).addToPool s card) + pack.length :=
      queueCards_pushStack _ t pack
    have e7 : poolCards
        ((({ d with packs_being_drafted := alSet d.packs_being_drafted s rest } :
          Draft).addToPool s card).pushStack t pack) =
        poolCards
          (({ d with packs_being_drafted := alSet d.packs_being_drafted s rest } :
            Draft).addToPool s card) := rfl
    have e8 : genCards
        ((({ d with packs_being_drafted := alSet d.packs_being_drafted s rest } :
          Draft).addToPool s card).pushStack t pack) = genCards d := rfl
    omega

theorem handle_pick_inv {players : List Uuid} {rounds cpp : Nat} {d : Draft}
    {s : Uuid} {i : Nat} {r : Except String (Card × NewPacks)} {d' : Draft}
    (hinv : DraftInv players rounds cpp d)
    (hstep : d.handle_pick s i = some (r, d')) :
    DraftInv players rounds cpp d' := by
  cases hpc : d.pick_card s i with
  | error e =>
    rw [handle_pick_of_pick_error d s i e hpc] at hstep
    obtain ⟨-, hd'⟩ := Prod.mk.injEq .. ▸ Option.some.injEq .. ▸ hstep
    exact hd' ▸ hinv
  | ok v =>
    obtain ⟨⟨card, pack⟩, d1⟩ := v
    obtain ⟨current, rest, hlk, hidx, hpk, hd1⟩ := pick_card_ok_spec d s i card pack d1 hpc
    subst hd1
    rw [handle_pick_of_pick_ok d s i card pack _ hpc] at hstep
    unfold Draft.afterPick at hstep
    dsimp only [] at hstep
    have hs : s ∈ players := by
      apply hinv.stack_keys_sub
      exact List.mem_map.mpr ⟨(s, current :: rest), lookup_mem hlk, rfl⟩
    have hne : players ≠ [] := List.ne_nil_of_mem hs
    obtain ⟨t, hnp, htmem⟩ := next_player_isSome
      (({ d with packs_being_drafted := alSet d.packs_being_drafted s rest } :
        Draft).addToPool s card) s
      (by
        show s ∈ d.players
        rw [hinv.players_eq]
        exact hs)
    have ht : t ∈ players := by
      rw [← hinv.players_eq]
      exact htmem
    rw [hnp] at hstep
    have hplen : pack.length + 1 = current.length := by
      rw [hpk, List.length_eraseIdx_of_lt hidx]
      omega
    cases hpe : pack.isEmpty with
    | true =>
      have hone : current.length = 1 := by
        have h0 : pack = [] := by
          rwa [List.isEmpty_iff] at hpe
        rw [h0] at hplen
        simpa using hplen.symm
      rw [passResidual_nil _ _ _ hpe] at hstep
      dsimp only [] at hstep
      exact finishPick_inv card (some t) s [] (inv_dE card hinv hs hlk hone) hne hstep
    | false =>
      obtain ⟨nap1, hpr⟩ := passResidual_some
        (({ d with packs_being_drafted := alSet d.packs_being_drafted s rest } :
          Draft).addToPool s card) t pack hpe
      rw [hpr] at hstep
      dsimp only [] at hstep
      exact finishPick_inv card (some t) s nap1
        (inv_dN card hinv hs ht hlk hplen) hne hstep

theorem reachable_inv {players : List Uuid} {rounds cpp : Nat} {d : Draft}
    (h : Reachable players rounds cpp d) : DraftInv players rounds cpp d := by
  induction h with
  | init packs res d hnd hplen hcpp hbegin =>
    exact begin_inv players rounds cpp packs res d hnd hplen hcpp hbegin
  | step d s i r d' hd hstep ih =>
    exact handle_pick_inv ih hstep

theorem finishPick_isSome {players : List Uuid} {rounds cpp : Nat} (card : Card)
    (next : Option Uuid) (player : Uuid) {d3 : Draft} (nap1 : NewPacks)
    (hinv3 : DraftInv players rounds cpp d3) (hne : players ≠ []) :
    (Draft.finishPick card next player d3 nap1).isSome := by
  unfold Draft.finishPick
  dsimp only []
  split
  · rename_i hguard
    have hg2 := hguard
    simp only [Bool.and_eq_true, Bool.not_eq_true'] at hg2
    obtain ⟨⟨-, hrf⟩, hdc⟩ := hg2
    obtain ⟨res, d4, hsr, -⟩ := inv_next_round hinv3 hne hrf hdc
    rw [hsr]
    rfl
  · rfl

theorem handle_pick_total {players : List Uuid} {rounds cpp : Nat} {d : Draft}
    (hinv : DraftInv players rounds cpp d) (s : Uuid) (i : Nat) :
    (d.handle_pick s i).isSome := by
  cases hpc : d.pick_card s i with
  | error e =>
    rw [handle_pick_of_pick_error d s i e hpc]
    rfl
  | ok v =>
    obtain ⟨⟨card, pack⟩, d1⟩ := v
    obtain ⟨current, rest, hlk, hidx, hpk, hd1⟩ := pick_card_ok_spec d s i card pack d1 hpc
    subst hd1
    rw [handle_pick_of_pick_ok d s i card pack _ hpc]
    unfold Draft.afterPick
    dsimp only []
    have hs : s ∈ players := by
      apply hinv.stack_keys_sub
      exact List.mem_map.mpr ⟨(s, current :: rest), lookup_mem hlk, rfl⟩
    have hne : players ≠ [] := List.ne_nil_of_mem hs
    obtain ⟨t, hnp, htmem⟩ := next_player_isSome
      (({ d with packs_being_drafted := alSet d.packs_being_drafted s rest } :
        Draft).addToPool s card) s
      (by
        show s ∈ d.players
        rw [hinv.players_eq]
        exact hs)
    have ht : t ∈ players := by
      rw [← hinv.players_eq]
      exact htmem
    rw [hnp]
    have hplen : pack.length + 1 = current.length := by
      rw [hpk, List.length_eraseIdx_of_lt hidx]
      omega
    cases hpe : pack.isEmpty with
    | true =>
      have hone : current.length = 1 := by
        have h0 : pack = [] := by
          rwa [List.isEmpty_iff] at hpe
        rw [h0] at hplen
        simpa using hplen.symm
      rw [passResidual_nil _ _ _ hpe]
      dsimp only []
      exact finishPick_isSome card (some t) s [] (inv_dE card hinv hs hlk hone) hne
    | false =>
      obtain ⟨nap1, hpr⟩ := passResidual_some
        (({ d with packs_being_drafted := alSet d.packs_being_drafted s rest } :
          Draft).addToPool s card) t pack hpe
      rw [hpr]
      dsimp only []
      exact finishPick_isSome card (some t) s nap1
        (inv_dN card hinv hs ht hlk hplen) hne

/-- The state the one-seat, one-round sample draft reaches after `begin`. -/
def wDraft : Draft :=
  { players := [0]
    pools := []
    direction := .Left
    rounds := 1
    current_round := 1
    generated_packs := []
    packs_being_drafted := [(0, [[sampleRare]])] }

theorem wReach : Reachable [0] 1 1 wDraft :=
  Reachable.init [[sampleRare]] [(0, [sampleRare])] wDraft (by decide) (by decide)
    (by decide) (by decide)

/-- C2: for every draft built from the seats `players` and
`players.length * rounds` generated packs of `cpp` cards each, in every state
reachable by `begin` and any sequence of `handle_pick` calls, the sum over
seats of the pool sizes, plus the sum over seats of the card counts of the
packs queued at that seat, plus the number of remaining generated packs times
`cpp`, equals `players.length * rounds * cpp`. -/
theorem draft_card_conservation (players : List Uuid) (rounds cpp : Nat)
    (d : Draft) (h : Reachable players rounds cpp d) :
    (players.map (fun s => seatPool d s)).sum +
      (players.map (fun s => seatQueueCards d s)).sum +
      d.generated_packs.length * cpp =
      players.length * rounds * cpp := by
  have hinv := reachable_inv h
  have h1 : (players.map (fun s => seatPool d s)).sum = poolCards d := by
    unfold seatPool poolCards
    exact sum_lookup_eq_sumVals List.length [] rfl d.pools players hinv.players_nodup
      hinv.pool_keys_nodup hinv.pool_keys_sub
  have h2 : (players.map (fun s => seatQueueCards d s)).sum = queueCards d := by
    unfold seatQueueCards queueCards
    exact sum_lookup_eq_sumVals (fun stack => (stack.map List.length).sum) [] rfl
      d.packs_being_drafted players hinv.players_nodup hinv.stack_keys_nodup
      hinv.stack_keys_sub
  have h3 : genCards d = d.generated_packs.length * cpp := by
    unfold genCards
    exact sum_map_length_const hinv.gen_cpp
  have h4 := hinv.conserve
  omega

theorem draft_card_conservation_witness :
    Reachable [0] 1 1 wDraft ∧
      (([0] : List Uuid).map (fun s => seatPool wDraft s)).sum +
        (([0] : List Uuid).map (fun s => seatQueueCards wDraft s)).sum +
        wDraft.generated_packs.length * 1 =
        ([0] : List Uuid).length * 1 * 1 :=
  ⟨wReach, draft_card_conservation [0] 1 1 wDraft wReach⟩

/-- C10: in every state reachable by `begin` and any sequence of
`handle_pick` calls from a draft built on `players.length * rounds` generated
packs, the number of remaining generated packs is exactly
`(rounds - current_round) * players.length`; consequently every `handle_pick`
call returns a value — in particular the `start_round` it may trigger, whose
modelled `pop().unwrap()` and front-pack `unwrap()` panics are `none`
results, never panics. -/
theorem generated_packs_track_rounds (players : List Uuid) (rounds cpp : Nat)
    (d : Draft) (h : Reachable players rounds cpp d) :
    d.generated_packs.length = (rounds - d.current_round) * players.length ∧
    ∀ (s : Uuid) (i : Nat), (d.handle_pick s i).isSome := by
  have hinv := reachable_inv h
  exact ⟨hinv.gen_len, fun s i => handle_pick_total hinv s i⟩

theorem generated_packs_track_rounds_witness :
    Reachable [0] 1 1 wDraft ∧
      wDraft.generated_packs.length = (1 - wDraft.current_round) * ([0] : List Uuid).length ∧
      (wDraft.handle_pick 0 0).isSome :=
  ⟨wReach, (generated_packs_track_rounds [0] 1 1 wDraft wReach).1,
    (generated_packs_track_rounds [0] 1 1 wDraft wReach).2 0 0⟩

/-- `enum ClientStatus` (src/server/src/draft/server.rs). -/
inductive ClientStatus where
  | Ok
  | Warning
  | Error
  deriving DecidableEq, Repr

/-- `struct PlayerDetails`. -/
structure PlayerDetails where
  seat : Uuid
  name : String
  ready : Bool
  status : ClientStatus
  deriving DecidableEq, Repr

/-- `enum ServerMessage`: messages the server pushes to client channels. -/
inductive ServerMessage where
  | Started
  | Ended
  | FatalError (e : String)
  | Pack (pack : Pack)
  | PickSuccessful (card : Card)
  | Finished (pool : List Card)
  | Connected (draft : Uuid) (seat : Uuid)
  | Reconnected (draft : Uuid) (seat : Uuid) (in_progress : Bool)
      (pool : List Card) (pack : Option (List Card))
  | Refresh
  | PlayerList (players : List PlayerDetails)
  | PlayerUpdate (details : PlayerDetails)
  deriving DecidableEq, Repr

/-- `enum ClientMessage`: messages a client sends the server. -/
inductive ClientMessage where
  | HeartBeat
  | ReadyState (ready : Bool)
  | Disconnected
  | SetName (name : String)
  | Pick (index : Nat)
  deriving DecidableEq, Repr

/-- `enum DraftServerRequest`; the `UnboundedSender` of a `Connect` is
modelled by the closed-flag of the offered channel. -/
inductive DraftServerRequest where
  | Connect (id : Uuid) (chanClosed : Bool)
  | Message (id : Uuid) (msg : ClientMessage)
  | Terminate (reason : String)
  deriving DecidableEq, Repr

/-- `enum Phase`: the lifecycle state of a draft server. -/
inductive Phase where
  | Lobby (readys : List (Uuid × Bool)) (config : DraftConfig) (pool : DraftPool)
  | Draft (draft : Draft)
  | Finished (pools : List (Uuid × List Card))
  | Terminated
  deriving DecidableEq, Repr

/-- `struct Client`: the per-connection bookkeeping; the `UnboundedSender`
channel is modelled by its closed-flag, `Instant` by a `Nat` timestamp. -/
structure Client where
  id : Uuid
  name : String
  chanClosed : Bool
  known_status : ClientStatus
  heartbeat : Nat
  deriving DecidableEq, Repr

/-- `Client::status`. -/
def Client.status (c : Client) : ClientStatus :=
  if c.chanClosed then .Error else c.known_status

/-- `DraftClients::get` / `get`: first client with the given id. -/
def getClient (clients : List Client) (id : Uuid) : Option Client :=
  clients.find? (fun c => c.id == id)

/-- `DraftClients::get_mut` followed by a field update: rewrite the first
client with the given id. -/
def updateClient : List Client → Uuid → (Client → Client) → List Client
  | [], _, _ => []
  | c :: rest, id, f =>
    if c.id = id then f c :: rest else c :: updateClient rest id f

/-- `struct DraftServer`: the request channel is modelled by its
closed-flag; messages pushed to client channels are collected as explicit
`(recipient, message)` outputs of each handler. -/
structure DraftServer where
  id : Uuid
  phase : Phase
  chanClosed : Bool
  clients : List Client
  deriving DecidableEq, Repr

/-- The first eight characters of `id.to_string()`, the default client
name. -/
def nameOf (id : Uuid) : String :=
  (toString id).take 8

namespace DraftServer

/-- `DraftServer::broadcast`: send to every client except `exclude`. -/
def broadcast (s : DraftServer) (message : ServerMessage) (exclude : Option Uuid) :
    List (Uuid × ServerMessage) :=
  (s.clients.filter (fun c => some c.id != exclude)).map (fun c => (c.id, message))

/-- `DraftServer::terminate`: switch to `Terminated`, close the request
channel and broadcast the fatal error. -/
def terminate (s : DraftServer) (error : String) :
    DraftServer × List (Uuid × ServerMessage) :=
  let s1 := { s with phase := .Terminated, chanClosed := true }
  (s1, broadcast s1 (.FatalError error) none)

/-- `DraftServer::broadcast_player_update`. -/
def broadcast_player_update (s : DraftServer) (player : Uuid) :
    List (Uuid × ServerMessage) :=
  let ready := match s.phase with
    | .Lobby readys _ _ => (List.lookup player readys).getD false
    | _ => true
  match getClient s.clients player with
  | some client =>
    broadcast s (.PlayerUpdate ⟨player, client.name, ready, client.status⟩)
      (some player)
  | none => []

/-- `DraftServer::set_client_status`. -/
def set_client_status (s : DraftServer) (id : Uuid) (status : ClientStatus) :
    DraftServer × List (Uuid × ServerMessage) :=
  match getClient s.clients id with
  | some client =>
    if client.known_status ≠ status then
      let s1 := { s with
        clients := updateClient s.clients id
          (fun c => { c with known_status := status }) }
      (s1, broadcast_player_update s1 id)
    else (s, [])
  | none => (s, [])

/-- `DraftServer::ready_state`. -/
def ready_state (s : DraftServer) (seat : Uuid) : Bool :=
  match s.phase with
  | .Lobby readys _ _ => (List.lookup seat readys).getD false
  | _ => (getClient s.clients seat).isSome

/-- `DraftServer::details_of`. -/
def details_of (s : DraftServer) (seat : Uuid) : Option PlayerDetails :=
  match getClient s.clients seat with
  | none => none
  | some client => some ⟨seat, client.name, s.ready_state seat, client.status⟩

/-- `DraftServer::player_list`. -/
def player_list (s : DraftServer) : List PlayerDetails :=
  s.clients.filterMap (fun c => s.details_of c.id)

/-- `DraftServer::send_to`. -/
def send_to (s : DraftServer) (id : Uuid) (message : ServerMessage) :
    List (Uuid × ServerMessage) :=
  match getClient s.clients id with
  | some _ => [(id, message)]
  | none => []

/-- `DraftServer::send_packs`. -/
def send_packs (s : DraftServer) (packs : NewPacks) : List (Uuid × ServerMessage) :=
  (packs.map (fun pr => s.send_to pr.1 (.Pack pr.2))).flatten

/-- `DraftServer::start_if_ready`: when all connected clients are ready,
build the packs and start the draft; on a pack-building error, terminate
with the formatted message and fall through to returning `false`.  The
modelled panic of `Draft::begin` propagates as `none`. -/
def start_if_ready (o : Oracle) (s : DraftServer) :
    Option (Bool × DraftServer × List (Uuid × ServerMessage)) :=
  match s.phase with
  | .Lobby readys config pool =>
    if !s.clients.isEmpty &&
        s.clients.all (fun c => (List.lookup c.id readys).getD false) then
      let players := s.clients.map (fun c => c.id)
      match make_packs o players.length config pool with
      | .ok packs =>
        match (Draft.new players config.rounds packs).begin with
        | none => none
        | some (res, draft) =>
          some (true, { s with phase := .Draft draft }, s.send_packs res)
      | .error e =>
        let (s1, out) := s.terminate ("Failed to create packs for draft: " ++ e)
        some (false, s1, out)
    else some (false, s, [])
  | _ => some (false, s, [])

/-- `DraftServer::finish_if_done`. -/
def finish_if_done (s : DraftServer) : DraftServer × List (Uuid × ServerMessage) :=
  match s.phase with
  | .Draft draft =>
    if draft.draft_complete then
      ({ s with phase := .Finished draft.pools },
        (draft.pools.map (fun pr => s.send_to pr.1 (.Finished pr.2))).flatten)
    else (s, [])
  | _ => (s, [])

/-- `DraftServer::handle_client_connection`; `now` is the current instant,
`cc` the closed-flag of the offered channel.  The `unwrap` of the re-fetched
client is the modelled panic (`none`, unreachable). -/
def handle_client_connection (s : DraftServer) (id : Uuid) (cc : Bool) (now : Nat) :
    Option (DraftServer × List (Uuid × ServerMessage)) :=
  match getClient s.clients id with
  | some _ =>
    let s1 := { s with
      clients := updateClient s.clients id (fun c => { c with chanClosed := cc }) }
    let (s2, out1) := s1.set_client_status id .Ok
    match getClient s2.clients id with
    | none => none
    | some _ =>
      match s2.phase with
      | .Lobby _ _ _ => some (s2, out1 ++ [(id, .Connected s2.id id)])
      | .Draft draft =>
        some (s2, out1 ++
          [(id, .Reconnected s2.id id true ((draft.drafted_cards id).getD [])
            (draft.current_pack id)),
          (id, .PlayerList s2.player_list)])
      | .Finished pools =>
        some (s2, out1 ++
          [(id, .Reconnected s2.id id false ((List.lookup id pools).getD []) none),
          (id, .PlayerList s2.player_list)])
      | .Terminated => some (s2, out1 ++ [(id, .FatalError "Draft terminated.")])
  | none =>
    match s.phase with
    | .Lobby readys config pool =>
      let s1 := { s with
        phase := .Lobby (alSet readys id false) config pool
        clients := s.clients ++ [⟨id, nameOf id, cc, .Ok, now⟩] }
      some (s1, s1.send_to id (.Connected s1.id id) ++
        s1.broadcast (.PlayerList s1.player_list) none)
    | _ => some (s, [(id, .Started)])

/-- `DraftServer::handle_client_message`; `now` is the current instant.
The modelled panics of `Draft::handle_pick` and `start_if_ready` propagate
as `none`. -/
def handle_client_message (o : Oracle) (s : DraftServer) (id : Uuid)
    (msg : ClientMessage) (now : Nat) :
    Option (DraftServer × List (Uuid × ServerMessage)) :=
  match getClient s.clients id with
  | none => some (s, [])
  | some _ =>
    let s0 := { s with
      clients := updateClient s.clients id (fun c => { c with heartbeat := now }) }
    match msg with
    | .HeartBeat => some (s0, [])
    | .ReadyState ready =>
      match s0.phase with
      | .Lobby readys config pool =>
        let s1 := { s0 with phase := .Lobby (alSet readys id ready) config pool }
        match start_if_ready o s1 with
        | none => none
        | some (started, s2, out) =>
          if started then some (s2, out)
          else some (s2, out ++ s2.broadcast_player_update id)
      | _ => some (s0, [])
    | .Disconnected =>
      match s0.phase with
      | .Lobby readys config pool =>
        let s1 := { s0 with
          clients := s0.clients.filter (fun c => !(c.id == id))
          phase := .Lobby (readys.filter (fun pr => !(pr.1 == id))) config pool }
        some (s1, s1.broadcast (.PlayerList s1.player_list) none)
      | _ =>
        let (s1, out) := s0.set_client_status id .Error
        some (s1, out)
    | .SetName name =>
      let s1 := { s0 with
        clients := updateClient s0.clients id (fun c => { c with name := name }) }
      some (s1, s1.broadcast_player_update id)
    | .Pick index =>
      match s0.phase with
      | .Draft draft =>
        match draft.handle_pick id index with
        | none => none
        | some (.ok (card, packs), draft1) =>
          let s1 := { s0 with phase := .Draft draft1 }
          let (s2, out2) := s1.finish_if_done
          some (s2, [(id, .PickSuccessful card)] ++ s1.send_packs packs ++ out2)
        | some (.error _, draft1) =>
          let s1 := { s0 with phase := .Draft draft1 }
          match draft1.current_pack id with
          | some pack => some (s1, [(id, .Pack pack)])
          | none => some (s1, [])
      | _ => some (s0, [(id, .Refresh)])

/-- `DraftServer::run`, one request: dispatch to the matching handler. -/
def handle_request (o : Oracle) (s : DraftServer) (req : DraftServerRequest)
    (now : Nat) : Option (DraftServer × List (Uuid × ServerMessage)) :=
  match req with
  | .Connect id cc => s.handle_client_connection id cc now
  | .Message id msg => handle_client_message o s id msg now
  | .Terminate reason => some (s.terminate reason)

end DraftServer

/-- Order of the lifecycle: Lobby 0, Draft 1, Finished 2, Terminated 3. -/
def phaseTag : Phase → Nat
  | .Lobby _ _ _ => 0
  | .Draft _ => 1
  | .Finished _ => 2
  | .Terminated => 3

/-- The allowed phase transitions of one handled request: stay, advance
Lobby to Draft or Draft to Finished, or jump to Terminated. -/
def tagOk (a b : Nat) : Prop :=
  b = a ∨ (a = 0 ∧ b = 1) ∨ (a = 1 ∧ b = 2) ∨ b = 3

theorem tagOk_refl (a : Nat) : tagOk a a := Or.inl rfl

theorem set_client_status_phase (s : DraftServer) (id : Uuid) (st : ClientStatus) :
    (DraftServer.set_client_status s id st).1.phase = s.phase := by
  unfold DraftServer.set_client_status
  cases getClient s.clients id with
  | none => rfl
  | some client =>
    dsimp only []
    split
    · rfl
    · rfl

theorem terminate_phase (s : DraftServer) (e : String) :
    (DraftServer.terminate s e).1.phase = Phase.Terminated := rfl

theorem finish_if_done_tag (s : DraftServer) :
    tagOk (phaseTag s.phase) (phaseTag (DraftServer.finish_if_done s).1.phase) := by
  unfold DraftServer.finish_if_done
  split
  · rename_i draft heq
    split
    · rw [heq]
      exact Or.inr (Or.inr (Or.inl ⟨rfl, rfl⟩))
    · exact tagOk_refl _
  · exact tagOk_refl _

theorem start_if_ready_tag (o : Oracle) (s : DraftServer) (b : Bool)
    (s' : DraftServer) (out : List (Uuid × ServerMessage))
    (h : DraftServer.start_if_ready o s = some (b, s', out)) :
    tagOk (phaseTag s.phase) (phaseTag s'.phase) := by
  unfold DraftServer.start_if_ready at h
  split at h
  · rename_i readys config pool heq
    split at h
    · dsimp only [] at h
      split at h
      · split at h
        · cases h
        · obtain ⟨-, h2⟩ := Prod.mk.injEq .. ▸ Option.some.injEq .. ▸ h
          obtain ⟨h3, -⟩ := Prod.mk.injEq .. ▸ h2
          rw [← h3, heq]
          exact Or.inr (Or.inl ⟨rfl, rfl⟩)
      · obtain ⟨-, h2⟩ := Prod.mk.injEq .. ▸ Option.some.injEq .. ▸ h
        obtain ⟨h3, -⟩ := Prod.mk.injEq .. ▸ h2
        rw [← h3]
        right; right; right
        rw [terminate_phase]
        rfl
    · obtain ⟨-, h2⟩ := Prod.mk.injEq .. ▸ Option.some.injEq .. ▸ h
      obtain ⟨h3, -⟩ := Prod.mk.injEq .. ▸ h2
      rw [← h3]
      exact tagOk_refl _
  · obtain ⟨-, h2⟩ := Prod.mk.injEq .. ▸ Option.some.injEq .. ▸ h
    obtain ⟨h3, -⟩ := Prod.mk.injEq .. ▸ h2
    rw [← h3]
    exact tagOk_refl _

theorem handle_client_connection_tag (s : DraftServer) (id : Uuid) (cc : Bool)
    (now : Nat) (s' : DraftServer) (out : List (Uuid × ServerMessage))
    (h : DraftServer.handle_client_connection s id cc now = some (s', out)) :
    phaseTag s'.phase = phaseTag s.phase := by
  unfold DraftServer.handle_client_connection at h
  split at h
  · dsimp only [] at h
    split at h
    · cases h
    · split at h <;>
        (obtain ⟨h3, -⟩ := Prod.mk.injEq .. ▸ Option.some.injEq .. ▸ h;
          rw [← h3, set_client_status_phase])
  · split at h
    · rename_i readys config pool heq
      dsimp only [] at h
      obtain ⟨h3, -⟩ := Prod.mk.injEq .. ▸ Option.some.injEq .. ▸ h
      rw [← h3, heq]
      rfl
    · obtain ⟨h3, -⟩ := Prod.mk.injEq .. ▸ Option.some.injEq .. ▸ h
      rw [← h3]

theorem handle_client_message_tag (o : Oracle) (s : DraftServer) (id : Uuid)
    (msg : ClientMessage) (now : Nat) (s' : DraftServer)
    (out : List (Uuid × ServerMessage))
    (h : DraftServer.handle_client_message o s id msg now = some (s', out)) :
    tagOk (phaseTag s.phase) (phaseTag s'.phase) := by
  unfold DraftServer.handle_client_message at h
  split at h
  · obtain ⟨h3, -⟩ := Prod.mk.injEq .. ▸ Option.some.injEq .. ▸ h
    rw [← h3]
    exact tagOk_refl _
  · dsimp only [] at h
    split at h
    · obtain ⟨h3, -⟩ := Prod.mk.injEq .. ▸ Option.some.injEq .. ▸ h
      rw [← h3]
      exact tagOk_refl _
    · split at h
      · rename_i readys config pool heq
        split at h
        · cases h
        · rename_i started s2 out2 heq2
          split at h <;>
            (obtain ⟨h3, -⟩ := Prod.mk.injEq .. ▸ Option.some.injEq .. ▸ h;
              rw [← h3, heq];
              exact start_if_ready_tag o _ started s2 out2 heq2)
      · obtain ⟨h3, -⟩ := Prod.mk.injEq .. ▸ Option.some.injEq .. ▸ h
        rw [← h3]
        exact tagOk_refl _
    · split at h
      · rename_i readys config pool heq
        obtain ⟨h3, -⟩ := Prod.mk.injEq .. ▸ Option.some.injEq .. ▸ h
        rw [← h3, heq]
        exact Or.inl rfl
      · obtain ⟨h3, -⟩ := Prod.mk.injEq .. ▸ Option.some.injEq .. ▸ h
        rw [← h3, set_client_status_phase]
        exact tagOk_refl _
    · obtain ⟨h3, -⟩ := Prod.mk.injEq .. ▸ Option.some.injEq .. ▸ h
      rw [← h3]
      exact tagOk_refl _
    · split at h
      · rename_i draft heq
        split at h
        · cases h
        · rename_i card packs draft1
          obtain ⟨h3, -⟩ := Prod.mk.injEq .. ▸ Option.some.injEq .. ▸ h
          rw [← h3, heq]
          exact finish_if_done_tag _
        · rename_i res draft1 e
          split at h <;>
            (obtain ⟨h3, -⟩ := Prod.mk.injEq .. ▸ Option.some.injEq .. ▸ h;
              rw [← h3, heq];
              exact Or.inl rfl)
      · obtain ⟨h3, -⟩ := Prod.mk.injEq .. ▸ Option.some.injEq .. ▸ h
        rw [← h3]
        exact tagOk_refl _

/-- C8: every handled request (Connect, Message or Terminate) moves the
server phase only forward along Lobby, Draft, Finished, or to Terminated,
and never backward or out of Terminated. -/
theorem phase_monotone (o : Oracle) (s : DraftServer) (req : DraftServerRequest)
    (now : Nat) (s' : DraftServer) (out : List (Uuid × ServerMessage))
    (h : DraftServer.handle_request o s req now = some (s', out)) :
    tagOk (phaseTag s.phase) (phaseTag s'.phase) := by
  cases req with
  | Connect id cc =>
    unfold DraftServer.handle_request at h
    rw [handle_client_connection_tag s id cc now s' out h]
    exact tagOk_refl _
  | Message id msg =>
    unfold DraftServer.handle_request at h
    exact handle_client_message_tag o s id msg now s' out h
  | Terminate reason =>
    unfold DraftServer.handle_request DraftServer.terminate at h
    dsimp only [] at h
    obtain ⟨h3, -⟩ := Prod.mk.injEq .. ▸ Option.some.injEq .. ▸ h
    rw [← h3]
    right; right; right
    rfl

theorem broadcast_none (s : DraftServer) (m : ServerMessage) :
    DraftServer.broadcast s m none = s.clients.map (fun c => (c.id, m)) := by
  unfold DraftServer.broadcast
  have hf : s.clients.filter (fun c => some c.id != none) = s.clients :=
    List.filter_eq_self.mpr (fun c _ => by simp)
  rw [hf]

theorem cex_make_packs_err :
    make_packs zeroOracle 1 cexConfig DraftPool.new =
      .error "Insufficient cards in pool." := by
  have htake : (⟨[], [], [], []⟩ : DraftPool).take Rarity.Mythic false =
      .error "Insufficient cards in pool." :=
    DraftPool.take_of_empty _ _ _ (by decide)
  simp only [make_packs, cexConfig, make_cube_packs_rarities, zeroOracle, id]
  norm_num
  simp [buildRarityPacks, buildRarityPack, takeRareSlots, htake, DraftPool.new,
    Except.map]

/-- C9 amended: when `start_if_ready` runs with the phase `Lobby`, a
non-empty client table and every client ready, and `make_packs` returns an
error, it terminates the server — phase `Terminated`, request channel
closed, the message "Failed to create packs for draft: {e}" broadcast to
every client — and returns `false` (the draft was not started), not `true`
as the claim states. -/
theorem start_if_ready_error (o : Oracle) (s : DraftServer)
    (readys : List (Uuid × Bool)) (config : DraftConfig) (pool : DraftPool)
    (e : String)
    (hph : s.phase = .Lobby readys config pool)
    (hne : s.clients.isEmpty = false)
    (hready : (s.clients.all (fun c => (List.lookup c.id readys).getD false)) = true)
    (hmk : make_packs o (s.clients.map (fun c => c.id)).length config pool = .error e) :
    DraftServer.start_if_ready o s =
      some (false, { s with phase := .Terminated, chanClosed := true },
        s.clients.map (fun c =>
          (c.id, ServerMessage.FatalError ("Failed to create packs for draft: " ++ e)))) := by
  unfold DraftServer.start_if_ready DraftServer.terminate
  rw [hph]
  dsimp only []
  have hguard : (!s.clients.isEmpty &&
      s.clients.all (fun c => (List.lookup c.id readys).getD false)) = true := by
    rw [hne, hready]
    rfl
  rw [if_pos hguard, hmk]
  dsimp only []
  rw [broadcast_none]

/-- A one-client lobby whose single client is ready, over the failing
pack configuration and an empty card pool. -/
def lobbyServer : DraftServer :=
  { id := 99
    phase := .Lobby [(7, true)] cexConfig DraftPool.new
    chanClosed := false
    clients := [⟨7, "p", false, .Ok, 0⟩] }

/-- C9 counterexample: a ready, non-empty lobby whose `make_packs` fails
deterministically; `start_if_ready` terminates the server and broadcasts
the formatted fatal error, but returns `false`, not `true` as claimed —
the `Err` arm of the `match` falls through to the trailing `false`. -/
theorem start_if_ready_false_cex :
    lobbyServer.phase = .Lobby [(7, true)] cexConfig DraftPool.new ∧
    lobbyServer.clients.isEmpty = false ∧
    (lobbyServer.clients.all (fun c => (List.lookup c.id [(7, true)]).getD false)) = true ∧
    make_packs zeroOracle (lobbyServer.clients.map (fun c => c.id)).length cexConfig
      DraftPool.new = .error "Insufficient cards in pool." ∧
    DraftServer.start_if_ready zeroOracle lobbyServer =
      some (false, { lobbyServer with phase := .Terminated, chanClosed := true },
        [(7, ServerMessage.FatalError
          "Failed to create packs for draft: Insufficient cards in pool.")]) := by
  have hmk : make_packs zeroOracle
      (List.map (fun c => c.id) lobbyServer.clients).length cexConfig DraftPool.new =
      .error "Insufficient cards in pool." := cex_make_packs_err
  refine ⟨rfl, rfl, by decide, hmk, ?_⟩
  unfold DraftServer.start_if_ready DraftServer.terminate
  rw [show lobbyServer.phase = .Lobby [(7, true)] cexConfig DraftPool.new from rfl]
  dsimp only []
  rw [if_pos (by decide), hmk]
  dsimp only []
  rw [broadcast_none]
  rfl

/-- C9 witness for the amended theorem, at the concrete failing lobby. -/
theorem start_if_ready_error_witness :
    DraftServer.start_if_ready zeroOracle lobbyServer =
      some (false, { lobbyServer with phase := .Terminated, chanClosed := true },
        lobbyServer.clients.map (fun c => (c.id, ServerMessage.FatalError
          ("Failed to create packs for draft: " ++ "Insufficient cards in pool.")))) :=
  start_if_ready_error zeroOracle lobbyServer [(7, true)] cexConfig DraftPool.new
    "Insufficient cards in pool." rfl rfl (by decide) cex_make_packs_err

/-- C8 witness: a `Terminate` request on the concrete lobby moves the phase
from Lobby to Terminated, an allowed transition. -/
theorem phase_monotone_witness :
    DraftServer.handle_request zeroOracle lobbyServer (.Terminate "stop") 0 =
      some ({ lobbyServer with phase := .Terminated, chanClosed := true },
        [(7, ServerMessage.FatalError "stop")]) ∧
    tagOk (phaseTag lobbyServer.phase)
      (phaseTag ({ lobbyServer with phase := .Terminated, chanClosed := true } :
        DraftServer).phase) :=
  ⟨rfl, phase_monotone zeroOracle lobbyServer (.Terminate "stop") 0
    { lobbyServer with phase := .Terminated, chanClosed := true }
    [(7, ServerMessage.FatalError "stop")] rfl⟩
